import Mathlib

/-!
Verification development for the calendar-event-generator template engine.

The Go sources are embedded shallowly:

* Go strings are Lean `String`s; the Go string helpers (`strings.Split`,
  `strings.ReplaceAll`, `strings.Contains`, `strings.TrimSpace`,
  `strconv.Atoi`, ...) are modelled as executable functions on `List Char`.
* `time.Time` values are instants, modelled as `Int` nanoseconds since the
  Unix epoch.  The parser is bound to one fixed-offset timezone
  (`TimeParser.offMinutes`, minutes east of UTC); daylight-saving shifts are
  outside the model.  Calendar dates are `Int` day counts since 1970-01-01
  (the Go code passes midnight `time.Time` values; a day count together with
  `TimeParser.midnight` carries the same information in a fixed-offset zone).
* JSON documents are an inductive `JVal`; a raw input is `Option JVal`
  (`none` = bytes that do not parse as JSON at all).  The `encoding/json`
  decoding of each template struct is modelled field by field, including the
  stdlib behaviour that unmarshalling JSON `null` is a no-op that keeps the
  zero value.  The text of stdlib JSON error messages is not modelled; the
  fixed string `jsonErrMsg` stands for it.
* Fallible Go functions returning `(T, error)` become `Except String T`,
  with the error strings built exactly as the `fmt.Errorf` calls build them.
* `time.Now()` in the recurring converter is modelled by an explicit
  `today : Int` day-count parameter.
-/

instance instDecEqExcept {ε α : Type} [DecidableEq ε] [DecidableEq α] :
    DecidableEq (Except ε α)
  | .error x, .error y =>
    if h : x = y then isTrue (h ▸ rfl) else isFalse fun hh => h (Except.error.inj hh)
  | .error _, .ok _ => isFalse fun hh => Except.noConfusion hh
  | .ok _, .error _ => isFalse fun hh => Except.noConfusion hh
  | .ok x, .ok y =>
    if h : x = y then isTrue (h ▸ rfl) else isFalse fun hh => h (Except.ok.inj hh)

/-! ## Go string helpers -/

def listToLower (l : List Char) : List Char := l.map Char.toLower

def listToUpper (l : List Char) : List Char := l.map Char.toUpper

/-- Model of `strings.TrimSpace`. -/
def listTrimSpace (l : List Char) : List Char :=
  ((l.dropWhile Char.isWhitespace).reverse.dropWhile Char.isWhitespace).reverse

/-- Model of `strings.Contains` for a non-empty pattern `p :: ps`. -/
def containsList (p : Char) (ps : List Char) : List Char → Bool
  | [] => false
  | c :: rest => (p :: ps).isPrefixOf (c :: rest) || containsList p ps rest

/-- Model of `strings.ReplaceAll` for a non-empty pattern `p :: ps`:
left-to-right, non-overlapping replacement.  Structural recursion on a
fuel that bounds the number of characters still to inspect (every step
consumes at least one character, so `l.length` fuel always suffices). -/
def replaceListAux (p : Char) (ps rep : List Char) : Nat → List Char → List Char
  | 0, l => l
  | _ + 1, [] => []
  | fuel + 1, c :: rest =>
    if (p :: ps).isPrefixOf (c :: rest) then
      rep ++ replaceListAux p ps rep fuel (rest.drop ps.length)
    else
      c :: replaceListAux p ps rep fuel rest

def replaceList (p : Char) (ps rep l : List Char) : List Char :=
  replaceListAux p ps rep l.length l

def goReplaceAll (l : List Char) (pat rep : String) : List Char :=
  match pat.toList with
  | [] => l
  | p :: ps => replaceList p ps rep.toList l

def goContains (l : List Char) (pat : String) : Bool :=
  match pat.toList with
  | [] => true
  | p :: ps => containsList p ps l

/-- Model of `strings.Split` for a single-character separator:
Go returns `count(sep)+1` pieces, so the result is never empty. -/
def splitOnChar (sep : Char) : List Char → List (List Char)
  | [] => [[]]
  | c :: rest =>
    let r := splitOnChar sep rest
    if c = sep then [] :: r
    else
      match r with
      | [] => [[c]]
      | h :: t => (c :: h) :: t

/-- Numeric value of a digit list (helper for `strconv.Atoi`). -/
def digitsToNat (l : List Char) : Option Nat :=
  if l.isEmpty then none
  else if l.all Char.isDigit then
    some (l.foldl (fun a c => a * 10 + (c.toNat - 48)) 0)
  else none

/-- Model of `strconv.Atoi`: optional sign, then digits only, and the
int64 range check — a value outside [-2^63, 2^63 - 1] fails with
`ErrRange`. -/
def parseGoInt (l : List Char) : Option Int :=
  match l with
  | '+' :: rest =>
    match digitsToNat rest with
    | some n => if n ≤ 9223372036854775807 then some (n : Int) else none
    | none => none
  | '-' :: rest =>
    match digitsToNat rest with
    | some n => if n ≤ 9223372036854775808 then some (-(n : Int)) else none
    | none => none
  | _ =>
    match digitsToNat l with
    | some n => if n ≤ 9223372036854775807 then some (n : Int) else none
    | none => none

/-! ## Civil calendar arithmetic -/

def isLeapYear (y : Int) : Bool :=
  (y.emod 4 == 0 && y.emod 100 != 0) || y.emod 400 == 0

def daysInMonth (y m : Int) : Int :=
  if m = 2 then (if isLeapYear y then 29 else 28)
  else if m = 4 ∨ m = 6 ∨ m = 9 ∨ m = 11 then 30
  else 31

/-- Days since 1970-01-01 of the civil date `y-m-d` (Gregorian). -/
def daysFromCivil (y m d : Int) : Int :=
  let y2 := if m ≤ 2 then y - 1 else y
  let era := (if 0 ≤ y2 then y2 else y2 - 399).tdiv 400
  let yoe := y2 - era * 400
  let mp := (m + 9).emod 12
  let doy := (153 * mp + 2).tdiv 5 + d - 1
  let doe := yoe * 365 + yoe.tdiv 4 - yoe.tdiv 100 + doy
  era * 146097 + doe - 719468

/-- Inverse of `daysFromCivil`: the civil date `(y, m, d)` of a day count. -/
def civilFromDays (z0 : Int) : Int × Int × Int :=
  let z := z0 + 719468
  let era := (if 0 ≤ z then z else z - 146096).tdiv 146097
  let doe := z - era * 146097
  let yoe := (doe - doe.tdiv 1460 + doe.tdiv 36524 - doe.tdiv 146096).tdiv 365
  let y := yoe + era * 400
  let doy := doe - (365 * yoe + yoe.tdiv 4 - yoe.tdiv 100)
  let mp := (5 * doy + 2).tdiv 153
  let d := doy - (153 * mp + 2).tdiv 5 + 1
  let m := mp + (if mp < 10 then 3 else -9)
  (if m ≤ 2 then y + 1 else y, m, d)

/-! ## Date layout parsing (model of `time.ParseInLocation` for the six
layouts tried by `ParseDate`) -/

/-- Consume exactly `n` digits, returning their value and the rest. -/
def takeDigits : Nat → Int → List Char → Option (Int × List Char)
  | 0, acc, l => some (acc, l)
  | k + 1, acc, l =>
    match l with
    | c :: rest =>
      if c.isDigit then takeDigits k (acc * 10 + (Int.ofNat c.toNat - 48)) rest
      else none
    | [] => none

/-- Consume one digit, or two when a second digit follows
(Go layout element `2`, i.e. an unpadded day). -/
def parse1or2Digits (l : List Char) : Option (Int × List Char) :=
  match l with
  | [] => none
  | c :: rest =>
    if c.isDigit then
      match rest with
      | c2 :: rest2 =>
        if c2.isDigit then
          some ((Int.ofNat c.toNat - 48) * 10 + (Int.ofNat c2.toNat - 48), rest2)
        else some (Int.ofNat c.toNat - 48, rest)
      | [] => some (Int.ofNat c.toNat - 48, [])
    else none

def expectChar (c : Char) : List Char → Option (List Char)
  | x :: rest => if x = c then some rest else none
  | [] => none

def expectChars (pat : List Char) (l : List Char) : Option (List Char) :=
  if pat.isPrefixOf l then some (l.drop pat.length) else none

/-- ASCII case-insensitive character comparison (Go lowercases with
`| 0x20` when matching month names). -/
def ciEqChar (a b : Char) : Bool := a.toLower = b.toLower

/-- Case-insensitively match `name` as a prefix, returning the rest. -/
def ciMatch : List Char → List Char → Option (List Char)
  | [], rest => some rest
  | _ :: _, [] => none
  | n :: ns, c :: cs => if ciEqChar n c then ciMatch ns cs else none

def longMonthNames : List String :=
  ["January", "February", "March", "April", "May", "June", "July",
   "August", "September", "October", "November", "December"]

def shortMonthNames : List String :=
  ["Jan", "Feb", "Mar", "Apr", "May", "Jun", "Jul",
   "Aug", "Sep", "Oct", "Nov", "Dec"]

/-- Go `lookup` over a month-name table: first name that matches a prefix
of the input (case-insensitively) wins; returns month number and rest. -/
def lookupMonthAux : List String → Int → List Char → Option (Int × List Char)
  | [], _, _ => none
  | n :: ns, i, l =>
    match ciMatch n.toList l with
    | some rest => some (i, rest)
    | none => lookupMonthAux ns (i + 1) l

/-- Layout `"2006-01-02"` (sep `-`) and `"2006/01/02"` (sep `/`). -/
def layoutYMD (sep : Char) (l : List Char) : Option (Int × Int × Int) := do
  let (y, r) ← takeDigits 4 0 l
  let r ← expectChar sep r
  let (mo, r) ← takeDigits 2 0 r
  let r ← expectChar sep r
  let (d, r) ← takeDigits 2 0 r
  if r.isEmpty then some (y, mo, d) else none

/-- Layout `"01/02/2006"` (US month/day/year). -/
def layoutUS (l : List Char) : Option (Int × Int × Int) := do
  let (mo, r) ← takeDigits 2 0 l
  let r ← expectChar '/' r
  let (d, r) ← takeDigits 2 0 r
  let r ← expectChar '/' r
  let (y, r) ← takeDigits 4 0 r
  if r.isEmpty then some (y, mo, d) else none

/-- Layout `"02-01-2006"` (EU day-month-year). -/
def layoutEU (l : List Char) : Option (Int × Int × Int) := do
  let (d, r) ← takeDigits 2 0 l
  let r ← expectChar '-' r
  let (mo, r) ← takeDigits 2 0 r
  let r ← expectChar '-' r
  let (y, r) ← takeDigits 4 0 r
  if r.isEmpty then some (y, mo, d) else none

/-- Layouts `"January 2, 2006"` and `"Jan 2, 2006"`. -/
def layoutMonthName (names : List String) (l : List Char) : Option (Int × Int × Int) := do
  let (mo, r) ← lookupMonthAux names 1 l
  let r ← expectChar ' ' r
  let (d, r) ← parse1or2Digits r
  let r ← expectChars [',', ' '] r
  let (y, r) ← takeDigits 4 0 r
  if r.isEmpty then some (y, mo, d) else none

/-- Range validation `time.Parse` applies after matching a layout. -/
def validDate (y m d : Int) : Bool :=
  1 ≤ m && m ≤ 12 && 1 ≤ d && d ≤ daysInMonth y m

/-- Try layouts in order; a layout whose syntactic match yields an
out-of-range date fails like a non-matching layout (as in Go). -/
def tryLayouts : List (List Char → Option (Int × Int × Int)) → List Char →
    Option (Int × Int × Int)
  | [], _ => none
  | f :: fs, l =>
    match f l with
    | some (y, m, d) =>
      if validDate y m d then some (y, m, d) else tryLayouts fs l
    | none => tryLayouts fs l

/-- `TimeParser.ParseDate`: tries the six layouts in source order and
returns the parsed civil date as a day count (the Go function returns the
corresponding midnight instant in the parser's zone). -/
def ParseDate (dateStr : String) : Except String Int :=
  let l := listTrimSpace dateStr.toList
  match tryLayouts
      [layoutYMD '-', layoutUS, layoutEU,
       layoutMonthName longMonthNames, layoutMonthName shortMonthNames,
       layoutYMD '/'] l with
  | some (y, m, d) => .ok (daysFromCivil y m d)
  | none => .error ("unable to parse date: " ++ String.mk l)

/-! ## Time-of-day and duration parsing -/

/-- The preprocessing of `ParseTime` up to the point where the `pm`/`am`
markers are tested: trim, lowercase, strip periods and spaces. -/
def timePreprocess (timeStr : String) : List Char :=
  let l := listToLower (listTrimSpace timeStr.toList)
  let l := goReplaceAll l "." ""
  goReplaceAll l " " ""

/-- `TimeParser.ParseTime` (the Go receiver is unused): hour/minute from a
12h or 24h clock string; no range validation of the numeric segments. -/
def ParseTime (timeStr : String) : Except String (Int × Int) :=
  let l := timePreprocess timeStr
  let isPM := goContains l "pm"
  let isAM := goContains l "am"
  let l := goReplaceAll l "pm" ""
  let l := goReplaceAll l "am" ""
  match splitOnChar ':' l with
  | p0 :: p1 :: _ =>
    match parseGoInt p0 with
    | none => .error ("invalid hour: " ++ String.mk p0)
    | some hour =>
      match parseGoInt p1 with
      | none => .error ("invalid minute: " ++ String.mk p1)
      | some minute =>
        let hour := if isPM && hour < 12 then hour + 12
                    else if isAM && hour == 12 then 0
                    else hour
        .ok (hour, minute)
  | _ => .error ("invalid time format: " ++ String.mk l)

/-- The stage of `ParseTime` after the `pm`/`am` markers are removed:
the text that is actually split on `:`. -/
def timeStripMarkers (timeStr : String) : List Char :=
  goReplaceAll (goReplaceAll (timePreprocess timeStr) "pm" "") "am" ""

/-- `TimeParser.ParseTimeRange`: normalize dashes and `to`/`TO` to `-`,
split into exactly two parts, parse each with `ParseTime`. -/
def ParseTimeRange (rangeStr : String) : Except String (Int × Int × Int × Int) :=
  let l := rangeStr.toList
  let l := goReplaceAll l "–" "-"
  let l := goReplaceAll l "—" "-"
  let l := goReplaceAll l "to" "-"
  let l := goReplaceAll l "TO" "-"
  match splitOnChar '-' l with
  | [a, b] =>
    match ParseTime (String.mk a) with
    | .error e => .error ("invalid start time: " ++ e)
    | .ok (sh, sm) =>
      match ParseTime (String.mk b) with
      | .error e => .error ("invalid end time: " ++ e)
      | .ok (eh, em) => .ok (sh, sm, eh, em)
  | _ => .error ("invalid time range format: " ++ String.mk l)

/-- Digit run and its value (helper of the duration parsers). -/
def leadingIntAux (acc : Int) : List Char → Int × List Char
  | [] => (acc, [])
  | c :: rest =>
    if c.isDigit then leadingIntAux (acc * 10 + (Int.ofNat c.toNat - 48)) rest
    else (acc, c :: rest)

def leadingFractionAux (f scale : Int) : List Char → Int × Int × List Char
  | [] => (f, scale, [])
  | c :: rest =>
    if c.isDigit then
      leadingFractionAux (f * 10 + (Int.ofNat c.toNat - 48)) (scale * 10) rest
    else (f, scale, c :: rest)

def durUnitNs (u : List Char) : Option Int :=
  if u = "ns".toList then some 1
  else if u = "us".toList then some 1000
  else if u = "µs".toList then some 1000
  else if u = "μs".toList then some 1000
  else if u = "ms".toList then some 1000000
  else if u = "s".toList then some 1000000000
  else if u = "m".toList then some 60000000000
  else if u = "h".toList then some 3600000000000
  else none

/-- Segment loop of `time.ParseDuration`.  The fractional contribution is
computed with exact integer arithmetic `(f * unit) / scale`; the Go stdlib
uses `float64` there, which can differ by sub-nanosecond rounding only. -/
def goDurSegments : Nat → List Char → Int → Option Int
  | 0, _, _ => none
  | _ + 1, [], acc => some acc
  | fuel + 1, c :: cs, acc =>
    if !(c = '.' || c.isDigit) then none
    else
      let l := c :: cs
      let (v, r1) := leadingIntAux 0 l
      let pre := r1.length != l.length
      let (f, scale, r2, post) :=
        match r1 with
        | '.' :: tl =>
          let (f, scale, r2) := leadingFractionAux 0 1 tl
          (f, scale, r2, tl.length != r2.length)
        | _ => (0, 1, r1, false)
      if !pre && !post then none
      else
        let u := r2.takeWhile (fun ch => !(ch = '.' || ch.isDigit))
        let r3 := r2.dropWhile (fun ch => !(ch = '.' || ch.isDigit))
        if u.isEmpty then none
        else
          match durUnitNs u with
          | none => none
          | some unit =>
            let dv := v * unit + (if 0 < f then (f * unit) / scale else 0)
            goDurSegments fuel r3 (acc + dv)

/-- Model of `time.ParseDuration` (nanoseconds; overflow not modelled). -/
def goParseDuration (l : List Char) : Option Int :=
  let sgn :=
    match l with
    | '-' :: rest => (true, rest)
    | '+' :: rest => (false, rest)
    | _ => (false, l)
  let neg := sgn.1
  let s := sgn.2
  if s = ['0'] then some 0
  else if s.isEmpty then none
  else (goDurSegments (s.length + 1) s 0).map (fun d => if neg then -d else d)

def dropWS (l : List Char) : List Char := l.dropWhile Char.isWhitespace

def digitVal (l : List Char) : Int :=
  Int.ofNat (l.foldl (fun a c => a * 10 + (c.toNat - 48)) 0)

/-- First alternative of the fallback regex
`(\d+)\s*h(?:ours?)?\s*(?:(\d+)\s*m)?` tried at one position. -/
def durBranchHours (l : List Char) : Option (Int × Option Int) :=
  let ds := l.takeWhile Char.isDigit
  let r := l.dropWhile Char.isDigit
  if ds.isEmpty then none
  else
    match dropWS r with
    | 'h' :: r1 =>
      let r2 :=
        if "ours".toList.isPrefixOf r1 then r1.drop 4
        else if "our".toList.isPrefixOf r1 then r1.drop 3
        else r1
      let r3 := dropWS r2
      let ds2 := r3.takeWhile Char.isDigit
      let r4 := r3.dropWhile Char.isDigit
      if ds2.isEmpty then some (digitVal ds, none)
      else
        match dropWS r4 with
        | 'm' :: _ => some (digitVal ds, some (digitVal ds2))
        | _ => some (digitVal ds, none)
    | _ => none

/-- Second alternative `(\d+)\s*m(?:in(?:utes?)?)?` tried at one position
(the optional suffix never affects the captured group). -/
def durBranchMins (l : List Char) : Option Int :=
  let ds := l.takeWhile Char.isDigit
  let r := l.dropWhile Char.isDigit
  if ds.isEmpty then none
  else
    match dropWS r with
    | 'm' :: _ => some (digitVal ds)
    | _ => none

/-- Leftmost-first scan of the fallback regex; returns (hours, minutes). -/
def durRegexScan : List Char → Option (Int × Int)
  | [] => none
  | c :: rest =>
    match durBranchHours (c :: rest) with
    | some (h, some m) => some (h, m)
    | some (h, none) => some (h, 0)
    | none =>
      match durBranchMins (c :: rest) with
      | some m => some (0, m)
      | none => durRegexScan rest

/-- `TimeParser.ParseDuration`: strict Go duration syntax, then the same
after unit-word normalization, then the regex fallback. -/
def ParseDuration (durationStr : String) : Except String Int :=
  let l := listToLower (listTrimSpace durationStr.toList)
  match goParseDuration l with
  | some d => .ok d
  | none =>
    let l := goReplaceAll l "hr" "h"
    let l := goReplaceAll l "hour" "h"
    let l := goReplaceAll l "hours" "h"
    let l := goReplaceAll l "min" "m"
    let l := goReplaceAll l "minute" "m"
    let l := goReplaceAll l "minutes" "m"
    match goParseDuration l with
    | some d => .ok d
    | none =>
      match durRegexScan l with
      | some (hrs, mins) => .ok (hrs * 3600000000000 + mins * 60000000000)
      | none => .error ("unable to parse duration: " ++ String.mk l)

/-! ## The `TimeParser` and instants -/

/-- `utils.TimeParser`, with its `*time.Location` modelled as a fixed
offset in minutes east of UTC. -/
structure TimeParser where
  offMinutes : Int
deriving DecidableEq, Repr

/-- `time.Date(y, m, d, hour, minute, sec, 0, loc)` for a day count:
out-of-range components normalize by rollover, exactly as in Go. -/
def TimeParser.mkInstant (tp : TimeParser) (days hour minute sec : Int) : Int :=
  (days * 86400 + hour * 3600 + minute * 60 + sec - tp.offMinutes * 60) * 1000000000

/-- The midnight instant of a day count in the parser's zone (this is the
`time.Time` value the Go `ParseDate` returns). -/
def TimeParser.midnight (tp : TimeParser) (days : Int) : Int :=
  tp.mkInstant days 0 0 0

/-- `TimeParser.CombineDateTime` (the Go version takes the midnight
`time.Time` and reads its year/month/day back). -/
def TimeParser.CombineDateTime (tp : TimeParser) (dateDays hour minute : Int) : Int :=
  tp.mkInstant dateDays hour minute 0

/-- `t.AddDate(0, 0, n)`: in a fixed-offset zone, adding calendar days
keeps the wall clock, i.e. shifts by whole 24h periods. -/
def addDays (t n : Int) : Int := t + n * 86400000000000

/-- `TimeParser.ParseDateTime`. -/
def TimeParser.ParseDateTime (tp : TimeParser) (dateStr timeStr : String) :
    Except String Int :=
  match ParseDate dateStr with
  | .error e => .error e
  | .ok date =>
    match ParseTime timeStr with
    | .error e => .error e
    | .ok (hour, minute) => .ok (tp.CombineDateTime date hour minute)

/-- `TimeParser.ParseDateTimeRange`: date + time range, with the overnight
rollover (`end` advanced one calendar day when it precedes `start`). -/
def TimeParser.ParseDateTimeRange (tp : TimeParser) (dateStr timeRangeStr : String) :
    Except String (Int × Int) :=
  match ParseDate dateStr with
  | .error e => .error e
  | .ok date =>
    match ParseTimeRange timeRangeStr with
    | .error e => .error e
    | .ok (sh, sm, eh, em) =>
      let start := tp.CombineDateTime date sh sm
      let endT := tp.CombineDateTime date eh em
      let endT := if endT < start then addDays endT 1 else endT
      .ok (start, endT)

/-! ## Canonical event model (`models/event.go`) -/

structure Reminder where
  Method : String := ""
  Minutes : Int := 0
deriving DecidableEq, Repr

structure RecurrenceRule where
  Frequency : String := ""
  Interval : Int := 0
  Until : Option Int := none
  Count : Int := 0
  ByDay : List String := []
  ExcludeWeekends : Bool := false
deriving DecidableEq, Repr

structure CalendarEvent where
  Name : String := ""
  Description : String := ""
  StartTime : Int := 0
  EndTime : Int := 0
  Location : String := ""
  Links : List String := []
  AllDay : Bool := false
  Recurrence : Option RecurrenceRule := none
  Reminders : List Reminder := []
  ColorID : String := ""
  Metadata : List (String × String) := []
deriving DecidableEq, Repr

/-- Go `string(rune(n))`: the one-character string of code point `n`, or
the replacement character for an invalid rune. -/
def goRuneString (n : Int) : String :=
  if (0 ≤ n ∧ n < 55296) ∨ (57343 < n ∧ n ≤ 1114111) then
    String.mk [Char.ofNat n.toNat]
  else "�"

def pad2 (n : Int) : String :=
  if n < 10 then "0" ++ toString n else toString n

def pad4 (n : Int) : String :=
  if n < 10 then "000" ++ toString n
  else if n < 100 then "00" ++ toString n
  else if n < 1000 then "0" ++ toString n
  else toString n

/-- `t.Format("20060102T150405Z")` for an instant viewed at the given
fixed offset; the trailing `Z` is a literal in this Go layout. -/
def formatStampZ (offMinutes t : Int) : String :=
  let sec := t.fdiv 1000000000 + offMinutes * 60
  let days := sec.fdiv 86400
  let rem := sec - days * 86400
  let ymd := civilFromDays days
  pad4 ymd.1 ++ pad2 ymd.2.1 ++ pad2 ymd.2.2 ++ "T" ++
    pad2 (rem.tdiv 3600) ++ pad2 ((rem.tdiv 60).tmod 60) ++ pad2 (rem.tmod 60) ++ "Z"

/-- `RecurrenceRule.ToRRuleString` (`models/event.go`).  A Go `time.Time`
carries its zone, so the zone of the stored `Until` instants — the zone the
parser was built with — is passed explicitly as `offMinutes`.  Note the
source renders INTERVAL and COUNT via `string(rune(n + '0'))` and formats
UNTIL in the instant's own zone with a literal `Z`. -/
def RecurrenceRule.ToRRuleString (offMinutes : Int) (r : Option RecurrenceRule) : String :=
  match r with
  | none => ""
  | some r =>
    let rule := "RRULE:FREQ=" ++ r.Frequency
    let rule := if 1 < r.Interval then rule ++ ";INTERVAL=" ++ goRuneString (r.Interval + 48) else rule
    let rule :=
      match r.Until with
      | some u => rule ++ ";UNTIL=" ++ formatStampZ offMinutes u
      | none => rule
    let rule := if 0 < r.Count then rule ++ ";COUNT=" ++ goRuneString (r.Count + 48) else rule
    let rule := if r.ByDay.isEmpty then rule else rule ++ ";BYDAY=" ++ String.intercalate "," r.ByDay
    rule

/-- `Client.buildRRule` (Google Calendar adapter): same field order, but
INTERVAL/COUNT via `fmt.Sprintf("%d", n)` and UNTIL via
`r.Until.UTC().Format(...)`, i.e. converted to UTC first. -/
def buildRRule (r : Option RecurrenceRule) : String :=
  match r with
  | none => ""
  | some r =>
    let rule := "RRULE:FREQ=" ++ r.Frequency
    let rule := if 1 < r.Interval then rule ++ ";INTERVAL=" ++ toString r.Interval else rule
    let rule :=
      match r.Until with
      | some u => rule ++ ";UNTIL=" ++ formatStampZ 0 u
      | none => rule
    let rule := if 0 < r.Count then rule ++ ";COUNT=" ++ toString r.Count else rule
    let rule := if r.ByDay.isEmpty then rule else rule ++ ";BYDAY=" ++ String.intercalate "," r.ByDay
    rule

/-! ## JSON values and `encoding/json` decoding -/

/-- A decoded JSON document.  Objects are the key/value lists Go's map
unmarshalling produces (keys distinct); numbers are restricted to the
integers, which covers every numeric field of the four dialects. -/
inductive JVal where
  | null
  | bool (b : Bool)
  | num (n : Int)
  | str (s : String)
  | arr (elems : List JVal)
  | obj (fields : List (String × JVal))

/-- Raw input bytes: `none` models bytes that are not valid JSON. -/
abbrev RawData := Option JVal

/-- Stands for the text of a Go `encoding/json` error. -/
def jsonErrMsg : String := "json unmarshal error"

def lookupField : List (String × JVal) → String → Option JVal
  | [], _ => none
  | (k, v) :: rest, key => if k = key then some v else lookupField rest key

/-- `json.Unmarshal` into `map[string]json.RawMessage`: the value must be
an object, or `null` (a no-op that leaves the map empty). -/
def unmarshalObj : JVal → Option (List (String × JVal))
  | JVal.obj fields => some fields
  | JVal.null => some []
  | _ => none

/-- Unmarshal a struct field of type `string`: absent or `null` keeps the
zero value `""`; any non-string JSON value is an unmarshal error. -/
def decodeStringField (fields : List (String × JVal)) (key : String) : Option String :=
  match lookupField fields key with
  | none => some ""
  | some JVal.null => some ""
  | some (JVal.str s) => some s
  | some _ => none

def decodeBoolField (fields : List (String × JVal)) (key : String) : Option Bool :=
  match lookupField fields key with
  | none => some false
  | some JVal.null => some false
  | some (JVal.bool b) => some b
  | some _ => none

def decodeIntField (fields : List (String × JVal)) (key : String) : Option Int :=
  match lookupField fields key with
  | none => some 0
  | some JVal.null => some 0
  | some (JVal.num n) => some n
  | some _ => none

def decodeStringElem : JVal → Option String
  | JVal.str s => some s
  | JVal.null => some ""
  | _ => none

def decodeStringListField (fields : List (String × JVal)) (key : String) :
    Option (List String) :=
  match lookupField fields key with
  | none => some []
  | some JVal.null => some []
  | some (JVal.arr es) => es.mapM decodeStringElem
  | some _ => none

/-! ## Template input records (`templates/*.go`) -/

structure WeeklyEvent where
  EventName : String := ""
  Date : String := ""
  Time : String := ""
  TopicDetails : String := ""
  UsefulLinks : List String := []
  Location : String := ""
  Description : String := ""
deriving DecidableEq, Repr

def decodeWeeklyEvent : JVal → Option WeeklyEvent
  | JVal.null => some {}
  | JVal.obj fields => do
    let en ← decodeStringField fields "event_name"
    let date ← decodeStringField fields "date"
    let time ← decodeStringField fields "time"
    let td ← decodeStringField fields "topic_details"
    let ul ← decodeStringListField fields "useful_links"
    let loc ← decodeStringField fields "location"
    let desc ← decodeStringField fields "description"
    some { EventName := en, Date := date, Time := time, TopicDetails := td,
           UsefulLinks := ul, Location := loc, Description := desc }
  | _ => none

/-- `json.Unmarshal(raw[weekKey], &weekEvents)`. -/
def decodeWeeklyEvents : Option JVal → Option (List WeeklyEvent)
  | some JVal.null => some []
  | some (JVal.arr es) => es.mapM decodeWeeklyEvent
  | _ => none

structure SingleEventInput where
  Name : String := ""
  Date : String := ""
  StartTime : String := ""
  EndTime : String := ""
  Duration : String := ""
  Description : String := ""
  Location : String := ""
  Links : List String := []
  AllDay : Bool := false
  ColorID : String := ""
deriving DecidableEq, Repr

def decodeSingleEventInput : JVal → Option SingleEventInput
  | JVal.null => some {}
  | JVal.obj fields => do
    let name ← decodeStringField fields "name"
    let date ← decodeStringField fields "date"
    let st ← decodeStringField fields "start_time"
    let et ← decodeStringField fields "end_time"
    let dur ← decodeStringField fields "duration"
    let desc ← decodeStringField fields "description"
    let loc ← decodeStringField fields "location"
    let links ← decodeStringListField fields "links"
    let ad ← decodeBoolField fields "all_day"
    let cid ← decodeStringField fields "color_id"
    some { Name := name, Date := date, StartTime := st, EndTime := et,
           Duration := dur, Description := desc, Location := loc,
           Links := links, AllDay := ad, ColorID := cid }
  | _ => none

structure SingleTemplate where
  Format : String := ""
  Events : List SingleEventInput := []
deriving DecidableEq, Repr

def decodeSingleTemplate : RawData → Option SingleTemplate
  | none => none
  | some JVal.null => some {}
  | some (JVal.obj fields) => do
    let f ← decodeStringField fields "format"
    let evs ←
      match lookupField fields "events" with
      | none => some []
      | some JVal.null => some []
      | some (JVal.arr es) => es.mapM decodeSingleEventInput
      | some _ => none
    some { Format := f, Events := evs }
  | some _ => none

structure RecurrenceInput where
  Frequency : String := ""
  Interval : Int := 0
  Until : String := ""
  Count : Int := 0
  ByDay : List String := []
  ExcludeWeekends : Bool := false
deriving DecidableEq, Repr

def decodeRecurrenceInput : JVal → Option RecurrenceInput
  | JVal.null => some {}
  | JVal.obj fields => do
    let fr ← decodeStringField fields "frequency"
    let iv ← decodeIntField fields "interval"
    let un ← decodeStringField fields "until"
    let ct ← decodeIntField fields "count"
    let bd ← decodeStringListField fields "by_day"
    let ew ← decodeBoolField fields "exclude_weekends"
    some { Frequency := fr, Interval := iv, Until := un, Count := ct,
           ByDay := bd, ExcludeWeekends := ew }
  | _ => none

structure RecurringEventInput where
  Name : String := ""
  StartDate : String := ""
  StartTime : String := ""
  EndTime : String := ""
  Duration : String := ""
  Description : String := ""
  Location : String := ""
  Links : List String := []
  Recurrence : RecurrenceInput := {}
  ColorID : String := ""
deriving DecidableEq, Repr

def decodeRecurringEventInput : JVal → Option RecurringEventInput
  | JVal.null => some {}
  | JVal.obj fields => do
    let name ← decodeStringField fields "name"
    let sd ← decodeStringField fields "start_date"
    let st ← decodeStringField fields "start_time"
    let et ← decodeStringField fields "end_time"
    let dur ← decodeStringField fields "duration"
    let desc ← decodeStringField fields "description"
    let loc ← decodeStringField fields "location"
    let links ← decodeStringListField fields "links"
    let rec ←
      match lookupField fields "recurrence" with
      | none => some {}
      | some v => decodeRecurrenceInput v
    let cid ← decodeStringField fields "color_id"
    some { Name := name, StartDate := sd, StartTime := st, EndTime := et,
           Duration := dur, Description := desc, Location := loc,
           Links := links, Recurrence := rec, ColorID := cid }
  | _ => none

structure RecurringTemplate where
  Format : String := ""
  Events : List RecurringEventInput := []
deriving DecidableEq, Repr

def decodeRecurringTemplate : RawData → Option RecurringTemplate
  | none => none
  | some JVal.null => some {}
  | some (JVal.obj fields) => do
    let f ← decodeStringField fields "format"
    let evs ←
      match lookupField fields "events" with
      | none => some []
      | some JVal.null => some []
      | some (JVal.arr es) => es.mapM decodeRecurringEventInput
      | some _ => none
    some { Format := f, Events := evs }
  | some _ => none

structure DateRangeEventInput where
  Name : String := ""
  StartDate : String := ""
  EndDate : String := ""
  StartTime : String := ""
  EndTime : String := ""
  AllDay : Bool := false
  Description : String := ""
  Location : String := ""
  Links : List String := []
  ColorID : String := ""
deriving DecidableEq, Repr

def decodeDateRangeEventInput : JVal → Option DateRangeEventInput
  | JVal.null => some {}
  | JVal.obj fields => do
    let name ← decodeStringField fields "name"
    let sd ← decodeStringField fields "start_date"
    let ed ← decodeStringField fields "end_date"
    let st ← decodeStringField fields "start_time"
    let et ← decodeStringField fields "end_time"
    let ad ← decodeBoolField fields "all_day"
    let desc ← decodeStringField fields "description"
    let loc ← decodeStringField fields "location"
    let links ← decodeStringListField fields "links"
    let cid ← decodeStringField fields "color_id"
    some { Name := name, StartDate := sd, EndDate := ed, StartTime := st,
           EndTime := et, AllDay := ad, Description := desc, Location := loc,
           Links := links, ColorID := cid }
  | _ => none

structure DateRangeTemplate where
  Format : String := ""
  Events : List DateRangeEventInput := []
deriving DecidableEq, Repr

def decodeDateRangeTemplate : RawData → Option DateRangeTemplate
  | none => none
  | some JVal.null => some {}
  | some (JVal.obj fields) => do
    let f ← decodeStringField fields "format"
    let evs ←
      match lookupField fields "events" with
      | none => some []
      | some JVal.null => some []
      | some (JVal.arr es) => es.mapM decodeDateRangeEventInput
      | some _ => none
    some { Format := f, Events := evs }
  | some _ => none

/-! ## String sorting (`sort.Strings`) -/

/-- Byte-lexicographic string order (UTF-8 byte order equals code-point
order, so comparing code points models Go string comparison). -/
def charListLe : List Char → List Char → Bool
  | [], _ => true
  | _ :: _, [] => false
  | a :: as, b :: bs =>
    if a.toNat < b.toNat then true
    else if b.toNat < a.toNat then false
    else charListLe as bs

def goStrLe (a b : String) : Bool := charListLe a.toList b.toList

def insertSorted (s : String) : List String → List String
  | [] => [s]
  | t :: ts => if goStrLe s t then s :: t :: ts else t :: insertSorted s ts

/-- Model of `sort.Strings` (ascending; ties are identical strings, so any
correct sorting algorithm yields this list). -/
def sortStrings : List String → List String
  | [] => []
  | s :: ss => insertSorted s (sortStrings ss)

/-! ## The template parser (`templates/*.go`) -/

/-- `templates.Parser`. -/
structure Parser where
  TimeParser : TimeParser
deriving DecidableEq, Repr

def FormatWeekly : String := "weekly"
def FormatSingle : String := "single"
def FormatRecurring : String := "recurring"
def FormatDateRange : String := "daterange"
def FormatAuto : String := "auto"

namespace Parser

/-- `Parser.convertWeeklyEvent`. -/
def convertWeeklyEvent (p : Parser) (we : WeeklyEvent) : Except String CalendarEvent :=
  match p.TimeParser.ParseDateTimeRange we.Date we.Time with
  | .error e => .error ("failed to parse date/time: " ++ e)
  | .ok (startTime, endTime) =>
    let d0 := we.TopicDetails
    let description :=
      if we.Description = "" then d0
      else (if d0 = "" then d0 else d0 ++ "\n\n") ++ we.Description
    .ok { Name := we.EventName, Description := description,
          StartTime := startTime, EndTime := endTime,
          Location := we.Location, Links := we.UsefulLinks }

/-- The per-record loop shared (textually) by all four `parse*` functions:
convert each record, wrapping the first failure with the declared name and
aborting; on success collect the events in input order. -/
def convertBatch {α : Type} (conv : α → Except String CalendarEvent)
    (nameOf : α → String) : List α → Except String (List CalendarEvent)
  | [] => .ok []
  | x :: xs =>
    match conv x with
    | .error e => .error ("failed to convert event \x27" ++ nameOf x ++ "\x27: " ++ e)
    | .ok ev =>
      match convertBatch conv nameOf xs with
      | .error e => .error e
      | .ok evs => .ok (ev :: evs)

/-- The `parseWeekly` key filter: `strings.HasPrefix(strings.ToLower(key), "week")`. -/
def isWeeklyKey (key : String) : Bool :=
  "week".toList.isPrefixOf (listToLower key.toList)

/-- The keys `parseWeekly` processes, in processing order. -/
def weekKeysSorted (raw : List (String × JVal)) : List String :=
  sortStrings ((raw.map Prod.fst).filter isWeeklyKey)

/-- One week group of `parseWeekly`: decode the array under `key` and
convert its events in order. -/
def weekGroup (p : Parser) (raw : List (String × JVal)) (key : String) :
    Except String (List CalendarEvent) :=
  match decodeWeeklyEvents (lookupField raw key) with
  | none => .error ("failed to parse week " ++ key ++ ": " ++ jsonErrMsg)
  | some ws => convertBatch p.convertWeeklyEvent (fun w => w.EventName) ws

def processWeeks (p : Parser) (raw : List (String × JVal)) :
    List String → Except String (List CalendarEvent)
  | [] => .ok []
  | k :: ks =>
    match p.weekGroup raw k with
    | .error e => .error e
    | .ok g =>
      match p.processWeeks raw ks with
      | .error e => .error e
      | .ok rest => .ok (g ++ rest)

/-- `Parser.parseWeekly`. -/
def parseWeekly (p : Parser) (data : RawData) : Except String (List CalendarEvent) :=
  match data with
  | none => .error ("failed to parse weekly JSON: " ++ jsonErrMsg)
  | some j =>
    match unmarshalObj j with
    | none => .error ("failed to parse weekly JSON: " ++ jsonErrMsg)
    | some raw => p.processWeeks raw (weekKeysSorted raw)

/-- `Parser.convertSingleEvent`. -/
def convertSingleEvent (p : Parser) (se : SingleEventInput) :
    Except String CalendarEvent :=
  match ParseDate se.Date with
  | .error e => .error ("failed to parse date: " ++ e)
  | .ok date =>
    if se.AllDay then
      .ok { Name := se.Name, Description := se.Description,
            StartTime := p.TimeParser.midnight date,
            EndTime := addDays (p.TimeParser.midnight date) 1,
            Location := se.Location, Links := se.Links,
            AllDay := se.AllDay, ColorID := se.ColorID }
    else
      match ParseTime se.StartTime with
      | .error e => .error ("failed to parse start time: " ++ e)
      | .ok (sh, sm) =>
        let startTime := p.TimeParser.CombineDateTime date sh sm
        let endTimeE : Except String Int :=
          if se.EndTime ≠ "" then
            match ParseTime se.EndTime with
            | .error e => .error ("failed to parse end time: " ++ e)
            | .ok (eh, em) =>
              let endT := p.TimeParser.CombineDateTime date eh em
              .ok (if endT < startTime then addDays endT 1 else endT)
          else if se.Duration ≠ "" then
            match ParseDuration se.Duration with
            | .error e => .error ("failed to parse duration: " ++ e)
            | .ok dur => .ok (startTime + dur)
          else
            .ok (startTime + 3600000000000)
        match endTimeE with
        | .error e => .error e
        | .ok endTime =>
          .ok { Name := se.Name, Description := se.Description,
                StartTime := startTime, EndTime := endTime,
                Location := se.Location, Links := se.Links,
                AllDay := se.AllDay, ColorID := se.ColorID }

/-- `Parser.parseSingle`. -/
def parseSingle (p : Parser) (data : RawData) : Except String (List CalendarEvent) :=
  match decodeSingleTemplate data with
  | none => .error ("failed to parse single events JSON: " ++ jsonErrMsg)
  | some t => convertBatch p.convertSingleEvent (fun se => se.Name) t.Events

end Parser

/-- `templates.normalizeDay`. -/
def normalizeDay (day : String) : String :=
  let d := String.mk (listToUpper (listTrimSpace day.toList))
  if d = "MONDAY" ∨ d = "MON" then "MO"
  else if d = "TUESDAY" ∨ d = "TUE" then "TU"
  else if d = "WEDNESDAY" ∨ d = "WED" then "WE"
  else if d = "THURSDAY" ∨ d = "THU" then "TH"
  else if d = "FRIDAY" ∨ d = "FRI" then "FR"
  else if d = "SATURDAY" ∨ d = "SAT" then "SA"
  else if d = "SUNDAY" ∨ d = "SUN" then "SU"
  else d

namespace Parser

/-- `Parser.convertRecurrenceRule`. -/
def convertRecurrenceRule (p : Parser) (ri : RecurrenceInput) :
    Except String RecurrenceRule :=
  let frequency := String.mk (listToUpper ri.Frequency.toList)
  if !(frequency = "DAILY" ∨ frequency = "WEEKLY" ∨ frequency = "MONTHLY" ∨
       frequency = "YEARLY") then
    .error ("invalid frequency: " ++ ri.Frequency)
  else
    let interval := if ri.Interval = 0 then 1 else ri.Interval
    let untilE : Except String (Option Int) :=
      if ri.Until = "" then .ok none
      else
        match ParseDate ri.Until with
        | .error e => .error ("failed to parse until date: " ++ e)
        | .ok d => .ok (some (p.TimeParser.mkInstant d 23 59 59))
    match untilE with
    | .error e => .error e
    | .ok untilV =>
      let byDay := ri.ByDay.map normalizeDay
      let byDay :=
        if ri.ExcludeWeekends ∧ byDay.isEmpty then ["MO", "TU", "WE", "TH", "FR"]
        else byDay
      .ok { Frequency := frequency, Interval := interval, Until := untilV,
            Count := ri.Count, ByDay := byDay,
            ExcludeWeekends := ri.ExcludeWeekends }

/-- `Parser.convertRecurringEvent`; `today` models
`time.Now().In(loc)` truncated to the start of its day. -/
def convertRecurringEvent (p : Parser) (today : Int) (re : RecurringEventInput) :
    Except String CalendarEvent :=
  let startDateE : Except String Int :=
    if re.StartDate ≠ "" then
      match ParseDate re.StartDate with
      | .error e => .error ("failed to parse start date: " ++ e)
      | .ok d => .ok d
    else .ok today
  match startDateE with
  | .error e => .error e
  | .ok startDate =>
    match ParseTime re.StartTime with
    | .error e => .error ("failed to parse start time: " ++ e)
    | .ok (sh, sm) =>
      let startTime := p.TimeParser.CombineDateTime startDate sh sm
      let endTimeE : Except String Int :=
        if re.EndTime ≠ "" then
          match ParseTime re.EndTime with
          | .error e => .error ("failed to parse end time: " ++ e)
          | .ok (eh, em) =>
            let endT := p.TimeParser.CombineDateTime startDate eh em
            .ok (if endT < startTime then addDays endT 1 else endT)
        else if re.Duration ≠ "" then
          match ParseDuration re.Duration with
          | .error e => .error ("failed to parse duration: " ++ e)
          | .ok dur => .ok (startTime + dur)
        else
          .ok (startTime + 3600000000000)
      match endTimeE with
      | .error e => .error e
      | .ok endTime =>
        match p.convertRecurrenceRule re.Recurrence with
        | .error e => .error ("failed to parse recurrence rule: " ++ e)
        | .ok rule =>
          .ok { Name := re.Name, Description := re.Description,
                StartTime := startTime, EndTime := endTime,
                Location := re.Location, Links := re.Links,
                Recurrence := some rule, ColorID := re.ColorID }

/-- `Parser.parseRecurring`. -/
def parseRecurring (p : Parser) (today : Int) (data : RawData) :
    Except String (List CalendarEvent) :=
  match decodeRecurringTemplate data with
  | none => .error ("failed to parse recurring events JSON: " ++ jsonErrMsg)
  | some t => convertBatch (p.convertRecurringEvent today) (fun re => re.Name) t.Events

/-- `Parser.convertDateRangeEvent`. -/
def convertDateRangeEvent (p : Parser) (dr : DateRangeEventInput) :
    Except String CalendarEvent :=
  match ParseDate dr.StartDate with
  | .error e => .error ("failed to parse start date: " ++ e)
  | .ok startDate =>
    match ParseDate dr.EndDate with
    | .error e => .error ("failed to parse end date: " ++ e)
    | .ok endDate =>
      let allDay := dr.AllDay || (dr.StartTime = "" && dr.EndTime = "")
      if allDay then
        .ok { Name := dr.Name, Description := dr.Description,
              StartTime := p.TimeParser.midnight startDate,
              EndTime := addDays (p.TimeParser.midnight endDate) 1,
              Location := dr.Location, Links := dr.Links,
              AllDay := allDay, ColorID := dr.ColorID }
      else
        let startTimeE : Except String Int :=
          if dr.StartTime ≠ "" then
            match ParseTime dr.StartTime with
            | .error e => .error ("failed to parse start time: " ++ e)
            | .ok (sh, sm) => .ok (p.TimeParser.CombineDateTime startDate sh sm)
          else .ok (p.TimeParser.midnight startDate)
        match startTimeE with
        | .error e => .error e
        | .ok startTime =>
          let endTimeE : Except String Int :=
            if dr.EndTime ≠ "" then
              match ParseTime dr.EndTime with
              | .error e => .error ("failed to parse end time: " ++ e)
              | .ok (eh, em) => .ok (p.TimeParser.CombineDateTime endDate eh em)
            else .ok (p.TimeParser.CombineDateTime endDate 23 59)
          match endTimeE with
          | .error e => .error e
          | .ok endTime =>
            .ok { Name := dr.Name, Description := dr.Description,
                  StartTime := startTime, EndTime := endTime,
                  Location := dr.Location, Links := dr.Links,
                  AllDay := allDay, ColorID := dr.ColorID }

/-- `Parser.parseDateRange`. -/
def parseDateRange (p : Parser) (data : RawData) : Except String (List CalendarEvent) :=
  match decodeDateRangeTemplate data with
  | none => .error ("failed to parse date range events JSON: " ++ jsonErrMsg)
  | some t => convertBatch p.convertDateRangeEvent (fun dr => dr.Name) t.Events

end Parser

/-! ## Format detection and dispatch (`templates/parser.go`) -/

def goToLowerStr (s : String) : String := String.mk (listToLower s.toList)

/-- Detection rule 3 key test: lowercased key starts with `week_` or
`week `, or equals `week1`. -/
def isWeekHeuristicKey (key : String) : Bool :=
  let k := listToLower key.toList
  "week_".toList.isPrefixOf k || "week ".toList.isPrefixOf k || k == "week1".toList

/-- The explicit-format step of `detectFormat`: `raw["format"]` unmarshalled
into a `string`.  JSON `null` unmarshals as a no-op, so a `null` format
yields the zero value `""` without an error. -/
def formatFieldValue (raw : List (String × JVal)) : Option String :=
  match lookupField raw "format" with
  | some (JVal.str s) => some s
  | some JVal.null => some ""
  | _ => none

/-- `json.Unmarshal(eventsRaw, &[]map[string]json.RawMessage)`: an array
whose elements are objects (or `null`, giving an empty map); a JSON `null`
itself yields an empty slice. -/
def unmarshalObjList : JVal → Option (List (List (String × JVal)))
  | JVal.null => some []
  | JVal.arr es => es.mapM unmarshalObj
  | _ => none

/-- `Parser.detectFormat`, following the source control flow. -/
def detectFormat (data : RawData) : String :=
  match data with
  | none => FormatSingle
  | some j =>
    match unmarshalObj j with
    | none => FormatSingle
    | some raw =>
      match formatFieldValue raw with
      | some f => goToLowerStr f
      | none =>
        if raw.any (fun kv => isWeekHeuristicKey kv.1) then FormatWeekly
        else
          match lookupField raw "events" with
          | some eventsRaw =>
            match unmarshalObjList eventsRaw with
            | some (first :: _) =>
              if (lookupField first "recurrence").isSome then FormatRecurring
              else if (lookupField first "end_date").isSome then FormatDateRange
              else FormatSingle
            | _ => FormatSingle
          | none => FormatSingle

/-- The detection algorithm as the specification states it, rule by rule:
1. not an object (or not JSON) → `single`; 2. a string-valued `format`
field → its lowercased value (a `null` format unmarshals to the zero value
`""`, which is returned); 3. any week-heuristic key → `weekly`; 4. an
`events` value decoding to a non-empty array of objects → `recurring` if
the first has a `recurrence` field, else `daterange` if it has `end_date`,
else `single`; 5. otherwise `single`. -/
def detectFormatSpec (data : RawData) : String :=
  match data with
  | some (JVal.obj fields) =>
    match lookupField fields "format" with
    | some (JVal.str s) => goToLowerStr s
    | some JVal.null => ""
    | _ =>
      if fields.any (fun kv => isWeekHeuristicKey kv.1) then "weekly"
      else
        match lookupField fields "events" with
        | some ev =>
          match unmarshalObjList ev with
          | some (first :: _) =>
            if (lookupField first "recurrence").isSome then "recurring"
            else if (lookupField first "end_date").isSome then "daterange"
            else "single"
          | _ => "single"
        | none => "single"
  | _ => "single"

/-- `Parser.Parse`: auto-detect when asked, then dispatch; an unrecognized
format is an error and produces no events. -/
def Parser.Parse (p : Parser) (today : Int) (data : RawData) (format : String) :
    Except String (List CalendarEvent) :=
  let format := if format = FormatAuto ∨ format = "" then detectFormat data else format
  if format = FormatWeekly then p.parseWeekly data
  else if format = FormatSingle then p.parseSingle data
  else if format = FormatRecurring then p.parseRecurring today data
  else if format = FormatDateRange then p.parseDateRange data
  else .error ("unknown template format: " ++ format)

/-! ## Observation helpers used in theorem statements -/

/-- The clock components the date-range converter uses for the start
instant: midnight when `start_time` is absent, else its parse. -/
def drStartClock (dr : DateRangeEventInput) : Except String (Int × Int) :=
  if dr.StartTime = "" then .ok (0, 0) else ParseTime dr.StartTime

/-- The clock components the date-range converter uses for the end
instant: 23:59 when `end_time` is absent, else its parse. -/
def drEndClock (dr : DateRangeEventInput) : Except String (Int × Int) :=
  if dr.EndTime = "" then .ok (23, 59) else ParseTime dr.EndTime

/-! ## Concrete instances for the witnesses and counterexamples -/

def tp0 : TimeParser := ⟨0⟩

def p0 : Parser := ⟨tp0⟩

/-- C1: a timed date-range record whose end clock precedes its start clock
on the same date; the converter has no rollover here. -/
def c1dr : DateRangeEventInput :=
  { Name := "Retreat", StartDate := "2025-01-01", EndDate := "2025-01-01",
    StartTime := "14:00", EndTime := "10:00" }

/-- C1 witness record: an ordinary timed single event. -/
def c1se : SingleEventInput :=
  { Name := "Sync", Date := "2025-03-01", StartTime := "10:00", EndTime := "11:00" }

def c1day : Int := daysFromCivil 2025 3 1

def c1ev : CalendarEvent :=
  { Name := "Sync", StartTime := tp0.CombineDateTime c1day 10 0,
    EndTime := tp0.CombineDateTime c1day 11 0 }

/-- C2: a document with a JSON-null `format` field and a `week_1` key. -/
def c2doc : RawData :=
  some (JVal.obj [("format", JVal.null), ("week_1", JVal.arr [])])

/-- C3: frequency WEEKLY with interval 12. -/
def c3r12 : RecurrenceRule := { Frequency := "WEEKLY", Interval := 12 }

/-- C3: the example rule of the specification. -/
def c3rEx : RecurrenceRule :=
  { Frequency := "WEEKLY", Interval := 2, ByDay := ["MO", "WE"] }

/-- C3: an end-of-day `until` instant in a zone 330 minutes east (the
value `convertRecurrenceRule` would store for `until: 2025-12-31`). -/
def c3rU : RecurrenceRule :=
  { Frequency := "DAILY", Interval := 1,
    Until := some ((TimeParser.mk 330).mkInstant (daysFromCivil 2025 12 31) 23 59 59) }

def c4jWev : JVal :=
  JVal.obj [("event_name", JVal.str "B"), ("date", JVal.str "2025-01-06"),
            ("time", JVal.str "10:00 - 11:00")]

/-- C4: a weekly document whose only key is `weekend`, which detection
rule 3 does not match. -/
def c4doc : RawData := some (JVal.obj [("weekend", JVal.arr [c4jWev])])

def c5jA : JVal :=
  JVal.obj [("event_name", JVal.str "A"), ("date", JVal.str "2025-01-06"),
            ("time", JVal.str "9:00 - 10:00")]

def c5jB : JVal :=
  JVal.obj [("event_name", JVal.str "B"), ("date", JVal.str "2025-01-06"),
            ("time", JVal.str "10:00 - 11:00")]

/-- C5: week_2 listed before week_1 in the document. -/
def c5fields : List (String × JVal) :=
  [("week_2", JVal.arr [c5jB]), ("week_1", JVal.arr [c5jA])]

def c5day : Int := daysFromCivil 2025 1 6

def c5evA : CalendarEvent :=
  { Name := "A", StartTime := tp0.CombineDateTime c5day 9 0,
    EndTime := tp0.CombineDateTime c5day 10 0 }

def c5evB : CalendarEvent :=
  { Name := "B", StartTime := tp0.CombineDateTime c5day 10 0,
    EndTime := tp0.CombineDateTime c5day 11 0 }

def c6day : Int := daysFromCivil 2025 1 1

/-- C7: a single-events template whose only record has an unparseable date. -/
def c7doc : RawData :=
  some (JVal.obj [("events", JVal.arr
    [JVal.obj [("name", JVal.str "A"), ("date", JVal.str "nope"),
               ("start_time", JVal.str "10:00")]])])

def c7se : SingleEventInput :=
  { Name := "A", Date := "nope", StartTime := "10:00" }

/-- C8: a document declaring `format: "bogus"`. -/
def c8doc : RawData := some (JVal.obj [("format", JVal.str "bogus")])

/-- C9: recurrence input with `exclude_weekends` and no `by_day`. -/
def c9ri : RecurrenceInput := { Frequency := "daily", ExcludeWeekends := true }

def c9rule : RecurrenceRule :=
  { Frequency := "DAILY", Interval := 1, ByDay := ["MO", "TU", "WE", "TH", "FR"],
    ExcludeWeekends := true }

/-! ## Helper lemmas -/

theorem charListLe_total : ∀ as bs, charListLe as bs = true ∨ charListLe bs as = true := by
  intro as
  induction as with
  | nil => intro bs; exact Or.inl rfl
  | cons a as ih =>
    intro bs
    cases bs with
    | nil => exact Or.inr rfl
    | cons b bs =>
      simp only [charListLe]
      by_cases h1 : a.toNat < b.toNat
      · simp [h1]
      · by_cases h2 : b.toNat < a.toNat
        · simp [h1, h2]
        · simpa [h1, h2] using ih bs

theorem charListLe_trans :
    ∀ as bs cs, charListLe as bs = true → charListLe bs cs = true →
      charListLe as cs = true := by
  intro as
  induction as with
  | nil => intro bs cs _ _; rfl
  | cons a as ih =>
    intro bs cs h1 h2
    cases bs with
    | nil => simp [charListLe] at h1
    | cons b bs =>
      cases cs with
      | nil => simp [charListLe] at h2
      | cons c cs =>
        simp only [charListLe] at h1 h2 ⊢
        by_cases hab : a.toNat < b.toNat
        · by_cases hbc : b.toNat < c.toNat
          · have hac : a.toNat < c.toNat := Nat.lt_trans hab hbc
            simp [hac]
          · by_cases hcb : c.toNat < b.toNat
            · simp [hbc, hcb] at h2
            · have hac : a.toNat < c.toNat := by omega
              simp [hac]
        · by_cases hba : b.toNat < a.toNat
          · simp [hab, hba] at h1
          · simp only [if_neg hab, if_neg hba] at h1
            by_cases hbc : b.toNat < c.toNat
            · have hac : a.toNat < c.toNat := by omega
              simp [hac]
            · by_cases hcb : c.toNat < b.toNat
              · simp [hbc, hcb] at h2
              · simp only [if_neg hbc, if_neg hcb] at h2
                have h3 : ¬ a.toNat < c.toNat := by omega
                have h4 : ¬ c.toNat < a.toNat := by omega
                simp only [if_neg h3, if_neg h4]
                exact ih bs cs h1 h2

theorem goStrLe_total (a b : String) : goStrLe a b = true ∨ goStrLe b a = true :=
  charListLe_total a.toList b.toList

theorem goStrLe_trans {a b c : String} (h1 : goStrLe a b = true)
    (h2 : goStrLe b c = true) : goStrLe a c = true :=
  charListLe_trans a.toList b.toList c.toList h1 h2

theorem mem_insertSorted {x s : String} :
    ∀ {l : List String}, x ∈ insertSorted s l ↔ x = s ∨ x ∈ l := by
  intro l
  induction l with
  | nil => simp [insertSorted]
  | cons t ts ih =>
    by_cases h : goStrLe s t
    · simp [insertSorted, h]
    · simp only [insertSorted, if_neg h, List.mem_cons, ih]
      tauto

theorem mem_sortStrings {x : String} :
    ∀ {l : List String}, x ∈ sortStrings l ↔ x ∈ l := by
  intro l
  induction l with
  | nil => simp [sortStrings]
  | cons s ss ih => simp [sortStrings, mem_insertSorted, ih]

theorem insertSorted_pairwise {s : String} :
    ∀ {l : List String}, l.Pairwise (fun a b => goStrLe a b = true) →
      (insertSorted s l).Pairwise (fun a b => goStrLe a b = true) := by
  intro l
  induction l with
  | nil => intro _; simp [insertSorted]
  | cons t ts ih =>
    intro h
    rw [List.pairwise_cons] at h
    by_cases hle : goStrLe s t
    · rw [insertSorted, if_pos hle, List.pairwise_cons]
      refine ⟨?_, List.pairwise_cons.2 h⟩
      intro x hx
      rcases List.mem_cons.1 hx with rfl | hx
      · exact hle
      · exact goStrLe_trans hle (h.1 x hx)
    · rw [insertSorted, if_neg hle, List.pairwise_cons]
      refine ⟨?_, ih h.2⟩
      intro x hx
      rcases mem_insertSorted.1 hx with rfl | hx
      · rcases goStrLe_total x t with h1 | h1
        · exact absurd h1 hle
        · exact h1
      · exact h.1 x hx

theorem sortStrings_pairwise :
    ∀ l : List String, (sortStrings l).Pairwise (fun a b => goStrLe a b = true) := by
  intro l
  induction l with
  | nil => simp [sortStrings]
  | cons s ss ih => exact insertSorted_pairwise ih

namespace Parser

theorem convertBatch_forall₂ {α : Type} (conv : α → Except String CalendarEvent)
    (nameOf : α → String) :
    ∀ {xs : List α} {ys : List CalendarEvent},
      List.Forall₂ (fun x ev => conv x = .ok ev) xs ys →
      convertBatch conv nameOf xs = .ok ys := by
  intro xs ys h
  induction h with
  | nil => rfl
  | cons hxy _ ih =>
    simp only [convertBatch, hxy, ih]

theorem convertBatch_ok_of_forall {α : Type} (conv : α → Except String CalendarEvent)
    (nameOf : α → String) :
    ∀ {xs : List α}, (∀ x ∈ xs, ∃ ev, conv x = .ok ev) →
      ∃ ys, convertBatch conv nameOf xs = .ok ys := by
  intro xs
  induction xs with
  | nil => intro _; exact ⟨[], rfl⟩
  | cons x xs ih =>
    intro h
    obtain ⟨ev, hev⟩ := h x (List.mem_cons_self x xs)
    obtain ⟨ys, hys⟩ := ih (fun y hy => h y (List.mem_cons_of_mem x hy))
    exact ⟨ev :: ys, by simp only [convertBatch, hev, hys]⟩

theorem convertBatch_error_of_mem {α : Type} (conv : α → Except String CalendarEvent)
    (nameOf : α → String) :
    ∀ {xs : List α} (x : α), x ∈ xs → (∃ e, conv x = .error e) →
      ∃ x2 msg, x2 ∈ xs ∧ conv x2 = .error msg ∧
        convertBatch conv nameOf xs =
          .error ("failed to convert event \x27" ++ nameOf x2 ++ "\x27: " ++ msg) := by
  intro xs
  induction xs with
  | nil => intro x hx; exact absurd hx (List.not_mem_nil x)
  | cons y ys ih =>
    intro x hx hxe
    cases hcy : conv y with
    | error e =>
      exact ⟨y, e, List.mem_cons_self y ys, hcy, by simp only [convertBatch, hcy]⟩
    | ok ev =>
      have hxy : x ≠ y := by
        intro h
        subst h
        obtain ⟨e, he⟩ := hxe
        rw [hcy] at he
        exact Except.noConfusion he
      have hx2 : x ∈ ys := by
        rcases List.mem_cons.1 hx with h | h
        · exact absurd h hxy
        · exact h
      obtain ⟨x2, msg, hmem, hconv, hbatch⟩ := ih x hx2 hxe
      exact ⟨x2, msg, List.mem_cons_of_mem y hmem, hconv,
        by simp only [convertBatch, hcy, hbatch]⟩

theorem processWeeks_forall₂ (p : Parser) (raw : List (String × JVal)) :
    ∀ {ks : List String} {gs : List (List CalendarEvent)},
      List.Forall₂ (fun k g => p.weekGroup raw k = .ok g) ks gs →
      p.processWeeks raw ks = .ok gs.flatten := by
  intro ks gs h
  induction h with
  | nil => rfl
  | cons hkg _ ih =>
    simp only [processWeeks, hkg, ih, List.flatten_cons]

theorem processWeeks_error (p : Parser) (raw : List (String × JVal)) :
    ∀ ks : List String,
      (∀ k ∈ ks, ∃ ws, decodeWeeklyEvents (lookupField raw k) = some ws) →
      (∃ k ∈ ks, ∃ ws w, decodeWeeklyEvents (lookupField raw k) = some ws ∧
        w ∈ ws ∧ ∃ e, p.convertWeeklyEvent w = .error e) →
      ∃ w msg, p.convertWeeklyEvent w = .error msg ∧
        p.processWeeks raw ks =
          .error ("failed to convert event \x27" ++ w.EventName ++ "\x27: " ++ msg) := by
  intro ks
  induction ks with
  | nil =>
    intro _ hex
    obtain ⟨k, hk, _⟩ := hex
    exact absurd hk (List.not_mem_nil k)
  | cons k0 ks ih =>
    intro hdec hex
    obtain ⟨ws0, hws0⟩ := hdec k0 (List.mem_cons_self k0 ks)
    by_cases hfail : ∃ w ∈ ws0, ∃ e, p.convertWeeklyEvent w = .error e
    · obtain ⟨w, hw, he⟩ := hfail
      obtain ⟨w2, msg, hmem, hconv, hbatch⟩ :=
        convertBatch_error_of_mem p.convertWeeklyEvent (fun w => w.EventName) w hw he
      refine ⟨w2, msg, hconv, ?_⟩
      simp only [processWeeks, weekGroup, hws0, hbatch]
    · have hok : ∃ g0, p.weekGroup raw k0 = .ok g0 := by
        have hall : ∀ w ∈ ws0, ∃ ev, p.convertWeeklyEvent w = .ok ev := by
          intro w hw
          cases hc : p.convertWeeklyEvent w with
          | error e => exact absurd ⟨w, hw, e, hc⟩ hfail
          | ok ev => exact ⟨ev, rfl⟩
        obtain ⟨ys, hys⟩ :=
          convertBatch_ok_of_forall p.convertWeeklyEvent (fun w => w.EventName) hall
        exact ⟨ys, by simp only [weekGroup, hws0, hys]⟩
      obtain ⟨g0, hg0⟩ := hok
      have hex2 : ∃ k ∈ ks, ∃ ws w, decodeWeeklyEvents (lookupField raw k) = some ws ∧
          w ∈ ws ∧ ∃ e, p.convertWeeklyEvent w = .error e := by
        obtain ⟨k, hk, ws, w, hws, hw, he⟩ := hex
        rcases List.mem_cons.1 hk with rfl | hk2
        · rw [hws0] at hws
          injection hws with hws
          subst hws
          exact absurd ⟨w, hw, he⟩ hfail
        · exact ⟨k, hk2, ws, w, hws, hw, he⟩
      obtain ⟨w, msg, hconv, hpw⟩ :=
        ih (fun k hk => hdec k (List.mem_cons_of_mem k0 hk)) hex2
      refine ⟨w, msg, hconv, ?_⟩
      simp only [processWeeks, hg0, hpw]

end Parser

/-! ## C1: end-time / start-time invariant -/

theorem c1_weekly_aux (p : Parser) (we : WeeklyEvent) (ev : CalendarEvent)
    (sh sm eh em : Int) (hconv : p.convertWeeklyEvent we = .ok ev)
    (htr : ParseTimeRange we.Time = .ok (sh, sm, eh, em))
    (hS : sh * 60 + sm ≤ 1440) (hE : 0 ≤ eh * 60 + em) :
    ev.StartTime ≤ ev.EndTime := by
  cases hd : ParseDate we.Date with
  | error e =>
    simp [Parser.convertWeeklyEvent, TimeParser.ParseDateTimeRange, hd] at hconv
  | ok d =>
    simp only [Parser.convertWeeklyEvent, TimeParser.ParseDateTimeRange, hd, htr] at hconv
    cases hconv
    by_cases hlt : p.TimeParser.CombineDateTime d eh em < p.TimeParser.CombineDateTime d sh sm
    · simp only [if_pos hlt]
      simp only [TimeParser.CombineDateTime, TimeParser.mkInstant, addDays] at *
      omega
    · simp only [if_neg hlt]
      simp only [TimeParser.CombineDateTime, TimeParser.mkInstant] at *
      omega

theorem c1_single_allday_aux (p : Parser) (se : SingleEventInput) (ev : CalendarEvent)
    (hconv : p.convertSingleEvent se = .ok ev) (hall : se.AllDay = true) :
    ev.EndTime = addDays ev.StartTime 1 := by
  cases hd : ParseDate se.Date with
  | error e => simp [Parser.convertSingleEvent, hd] at hconv
  | ok d =>
    simp only [Parser.convertSingleEvent, hd, hall, if_pos] at hconv
    cases hconv
    rfl

theorem c1_single_timed_aux (p : Parser) (se : SingleEventInput) (ev : CalendarEvent)
    (sh sm : Int) (hconv : p.convertSingleEvent se = .ok ev)
    (hall : se.AllDay = false) (hst : ParseTime se.StartTime = .ok (sh, sm))
    (hS : sh * 60 + sm ≤ 1440) :
    (∀ eh em, ParseTime se.EndTime = .ok (eh, em) → 0 ≤ eh * 60 + em →
      ev.StartTime ≤ ev.EndTime) ∧
    (∀ dur, se.EndTime = "" → ParseDuration se.Duration = .ok dur → 0 ≤ dur →
      ev.StartTime ≤ ev.EndTime) ∧
    (se.EndTime = "" → se.Duration = "" → ev.StartTime ≤ ev.EndTime) := by
  cases hd : ParseDate se.Date with
  | error e => simp [Parser.convertSingleEvent, hd] at hconv
  | ok d =>
    simp only [Parser.convertSingleEvent, hd, hall, hst] at hconv
    by_cases hET : se.EndTime = ""
    · by_cases hDur : se.Duration = ""
      · simp only [hET, hDur, ne_eq, not_true_eq_false, if_false, ite_false] at hconv
        cases hconv
        refine ⟨?_, ?_, ?_⟩
        · intro eh em hp _
          have h0 : ParseTime "" = .error "invalid time format: " := by decide
          rw [hET, h0] at hp
          exact Except.noConfusion hp
        · intro dur _ hpd _
          have h0 : ParseDuration "" = .error "unable to parse duration: " := by decide
          rw [hDur, h0] at hpd
          exact Except.noConfusion hpd
        · intro _ _
          simp only [TimeParser.CombineDateTime, TimeParser.mkInstant]
          omega
      · simp only [hET, ne_eq, not_true_eq_false, if_false, hDur, not_false_eq_true,
          if_true] at hconv
        cases hpd : ParseDuration se.Duration with
        | error e => simp [hpd] at hconv
        | ok dv =>
          simp only [hpd] at hconv
          cases hconv
          refine ⟨?_, ?_, ?_⟩
          · intro eh em hp _
            have h0 : ParseTime "" = .error "invalid time format: " := by decide
            rw [hET, h0] at hp
            exact Except.noConfusion hp
          · intro dur _ hpd2 hnn
            injection hpd2 with h
            subst h
            simp only [TimeParser.CombineDateTime, TimeParser.mkInstant]
            omega
          · intro _ h2
            exact absurd h2 hDur
    · cases hpe : ParseTime se.EndTime with
      | error e =>
        simp only [ne_eq, hET, not_false_eq_true, if_true, hpe] at hconv
        exact Except.noConfusion hconv
      | ok pr =>
        obtain ⟨eh2, em2⟩ := pr
        simp only [ne_eq, hET, not_false_eq_true, if_true, hpe] at hconv
        cases hconv
        refine ⟨?_, ?_, ?_⟩
        · intro eh em hp hnn
          injection hp with h
          rw [Prod.mk.injEq] at h
          obtain ⟨h1, h2⟩ := h
          subst h1
          subst h2
          by_cases hlt : p.TimeParser.CombineDateTime d eh2 em2 <
              p.TimeParser.CombineDateTime d sh sm
          · simp only [if_pos hlt]
            simp only [TimeParser.CombineDateTime, TimeParser.mkInstant, addDays] at *
            omega
          · simp only [if_neg hlt]
            simp only [TimeParser.CombineDateTime, TimeParser.mkInstant] at *
            omega
        · intro dur hET2 _ _
          exact absurd hET2 hET
        · intro hET2 _
          exact absurd hET2 hET

theorem c1_recurring_aux (p : Parser) (today : Int) (re : RecurringEventInput)
    (ev : CalendarEvent) (sh sm : Int)
    (hconv : p.convertRecurringEvent today re = .ok ev)
    (hst : ParseTime re.StartTime = .ok (sh, sm)) (hS : sh * 60 + sm ≤ 1440) :
    (∀ eh em, ParseTime re.EndTime = .ok (eh, em) → 0 ≤ eh * 60 + em →
      ev.StartTime ≤ ev.EndTime) ∧
    (∀ dur, re.EndTime = "" → ParseDuration re.Duration = .ok dur → 0 ≤ dur →
      ev.StartTime ≤ ev.EndTime) ∧
    (re.EndTime = "" → re.Duration = "" → ev.StartTime ≤ ev.EndTime) := by
  unfold Parser.convertRecurringEvent at hconv
  cases hsdE : (if re.StartDate ≠ "" then
      match ParseDate re.StartDate with
      | .error e => Except.error ("failed to parse start date: " ++ e)
      | .ok d => Except.ok d
    else Except.ok today) with
  | error e => rw [hsdE] at hconv; exact Except.noConfusion hconv
  | ok d =>
    rw [hsdE] at hconv
    simp only [hst] at hconv
    cases hrr : p.convertRecurrenceRule re.Recurrence with
    | error e =>
      by_cases hET : re.EndTime = ""
      · by_cases hDur : re.Duration = ""
        · simp [hET, hDur, hrr] at hconv
        · simp only [hET, ne_eq, not_true_eq_false, if_false, hDur, not_false_eq_true,
            if_true] at hconv
          cases hpd : ParseDuration re.Duration with
          | error e2 => simp [hpd] at hconv
          | ok dv => simp [hpd, hrr] at hconv
      · cases hpe : ParseTime re.EndTime with
        | error e2 => simp [hET, hpe] at hconv
        | ok pr => simp [hET, hpe, hrr] at hconv
    | ok rule =>
      by_cases hET : re.EndTime = ""
      · by_cases hDur : re.Duration = ""
        · simp only [hET, hDur, ne_eq, not_true_eq_false, if_false, ite_false,
            hrr] at hconv
          cases hconv
          refine ⟨?_, ?_, ?_⟩
          · intro eh em hp _
            have h0 : ParseTime "" = .error "invalid time format: " := by decide
            rw [hET, h0] at hp
            exact Except.noConfusion hp
          · intro dur _ hpd _
            have h0 : ParseDuration "" = .error "unable to parse duration: " := by decide
            rw [hDur, h0] at hpd
            exact Except.noConfusion hpd
          · intro _ _
            simp only [TimeParser.CombineDateTime, TimeParser.mkInstant]
            omega
        · simp only [hET, ne_eq, not_true_eq_false, if_false, hDur, not_false_eq_true,
            if_true] at hconv
          cases hpd : ParseDuration re.Duration with
          | error e => simp [hpd] at hconv
          | ok dv =>
            simp only [hpd, hrr] at hconv
            cases hconv
            refine ⟨?_, ?_, ?_⟩
            · intro eh em hp _
              have h0 : ParseTime "" = .error "invalid time format: " := by decide
              rw [hET, h0] at hp
              exact Except.noConfusion hp
            · intro dur _ hpd2 hnn
              injection hpd2 with h
              subst h
              simp only [TimeParser.CombineDateTime, TimeParser.mkInstant]
              omega
            · intro _ h2
              exact absurd h2 hDur
      · cases hpe : ParseTime re.EndTime with
        | error e =>
          simp only [ne_eq, hET, not_false_eq_true, if_true, hpe] at hconv
          exact Except.noConfusion hconv
        | ok pr =>
          obtain ⟨eh2, em2⟩ := pr
          simp only [ne_eq, hET, not_false_eq_true, if_true, hpe, hrr] at hconv
          cases hconv
          refine ⟨?_, ?_, ?_⟩
          · intro eh em hp hnn
            injection hp with h
            rw [Prod.mk.injEq] at h
            obtain ⟨h1, h2⟩ := h
            subst h1
            subst h2
            by_cases hlt : p.TimeParser.CombineDateTime d eh2 em2 <
                p.TimeParser.CombineDateTime d sh sm
            · simp only [if_pos hlt]
              simp only [TimeParser.CombineDateTime, TimeParser.mkInstant, addDays] at *
              omega
            · simp only [if_neg hlt]
              simp only [TimeParser.CombineDateTime, TimeParser.mkInstant] at *
              omega
          · intro dur hET2 _ _
            exact absurd hET2 hET
          · intro hET2 _
            exact absurd hET2 hET

theorem c1_daterange_aux (p : Parser) (dr : DateRangeEventInput) (ev : CalendarEvent)
    (ds de : Int) (hconv : p.convertDateRangeEvent dr = .ok ev)
    (hds : ParseDate dr.StartDate = .ok ds) (hde : ParseDate dr.EndDate = .ok de) :
    (ev.AllDay = true →
      ev.StartTime = p.TimeParser.midnight ds ∧
      ev.EndTime = addDays (p.TimeParser.midnight de) 1 ∧
      (ds ≤ de → addDays ev.StartTime 1 ≤ ev.EndTime)) ∧
    (ev.AllDay = false → ∀ sh sm eh em, drStartClock dr = .ok (sh, sm) →
      drEndClock dr = .ok (eh, em) →
      ev.StartTime = p.TimeParser.CombineDateTime ds sh sm ∧
      ev.EndTime = p.TimeParser.CombineDateTime de eh em ∧
      (ds * 1440 + sh * 60 + sm ≤ de * 1440 + eh * 60 + em →
        ev.StartTime ≤ ev.EndTime)) := by
  simp only [Parser.convertDateRangeEvent, hds, hde] at hconv
  by_cases hAD : (dr.AllDay || (dr.StartTime = "" && dr.EndTime = "")) = true
  · rw [if_pos hAD] at hconv
    cases hconv
    refine ⟨?_, ?_⟩
    · intro _
      refine ⟨rfl, rfl, ?_⟩
      intro hle
      simp only [TimeParser.midnight, TimeParser.mkInstant, addDays]
      omega
    · intro hfalse
      have hfalse2 : (dr.AllDay || (dr.StartTime = "" && dr.EndTime = "")) = false :=
        hfalse
      rw [hAD] at hfalse2
      exact Bool.noConfusion hfalse2
  · rw [if_neg hAD] at hconv
    have hADf : (dr.AllDay || (dr.StartTime = "" && dr.EndTime = "")) = false := by
      cases h : (dr.AllDay || (dr.StartTime = "" && dr.EndTime = ""))
      · rfl
      · exact absurd h hAD
    have haf : dr.AllDay = false := by
      cases h : dr.AllDay
      · rfl
      · rw [h] at hADf; simp at hADf
    by_cases hST : dr.StartTime = ""
    · by_cases hET : dr.EndTime = ""
      · rw [hST, hET] at hADf
        simp at hADf
      · cases hpe : ParseTime dr.EndTime with
        | error e => simp [hST, hET, hpe] at hconv
        | ok pr =>
          obtain ⟨eh2, em2⟩ := pr
          simp only [hST, ne_eq, not_true_eq_false, if_false, hET, not_false_eq_true,
            if_true, hpe] at hconv
          cases hconv
          refine ⟨?_, ?_⟩
          · intro habs
            simp [haf] at habs
          · intro _ sh sm eh em hsc hec
            unfold drStartClock at hsc
            rw [if_pos hST] at hsc
            injection hsc with h
            rw [Prod.mk.injEq] at h
            obtain ⟨h1, h2⟩ := h
            subst h1; subst h2
            unfold drEndClock at hec
            rw [if_neg hET, hpe] at hec
            injection hec with h
            rw [Prod.mk.injEq] at h
            obtain ⟨h1, h2⟩ := h
            subst h1; subst h2
            refine ⟨rfl, rfl, ?_⟩
            intro hle
            simp only [TimeParser.midnight, TimeParser.CombineDateTime,
              TimeParser.mkInstant]
            omega
    · cases hps : ParseTime dr.StartTime with
      | error e => simp [hST, hps] at hconv
      | ok prs =>
        obtain ⟨sh2, sm2⟩ := prs
        by_cases hET : dr.EndTime = ""
        · simp only [ne_eq, hST, not_false_eq_true, if_true, hps, hET,
            not_true_eq_false, if_false, ite_false] at hconv
          cases hconv
          refine ⟨?_, ?_⟩
          · intro habs
            simp [haf] at habs
          · intro _ sh sm eh em hsc hec
            unfold drStartClock at hsc
            rw [if_neg hST, hps] at hsc
            injection hsc with h
            rw [Prod.mk.injEq] at h
            obtain ⟨h1, h2⟩ := h
            subst h1; subst h2
            unfold drEndClock at hec
            rw [if_pos hET] at hec
            injection hec with h
            rw [Prod.mk.injEq] at h
            obtain ⟨h1, h2⟩ := h
            subst h1; subst h2
            refine ⟨rfl, rfl, ?_⟩
            intro hle
            simp only [TimeParser.CombineDateTime, TimeParser.mkInstant]
            omega
        · cases hpe : ParseTime dr.EndTime with
          | error e => simp [hST, hET, hps, hpe] at hconv
          | ok pre =>
            obtain ⟨eh2, em2⟩ := pre
            simp only [ne_eq, hST, not_false_eq_true, if_true, hps, hET,
              hpe] at hconv
            cases hconv
            refine ⟨?_, ?_⟩
            · intro habs
              simp [haf] at habs
            · intro _ sh sm eh em hsc hec
              unfold drStartClock at hsc
              rw [if_neg hST, hps] at hsc
              injection hsc with h
              rw [Prod.mk.injEq] at h
              obtain ⟨h1, h2⟩ := h
              subst h1; subst h2
              unfold drEndClock at hec
              rw [if_neg hET, hpe] at hec
              injection hec with h
              rw [Prod.mk.injEq] at h
              obtain ⟨h1, h2⟩ := h
              subst h1; subst h2
              refine ⟨rfl, rfl, ?_⟩
              intro hle
              simp only [TimeParser.CombineDateTime, TimeParser.mkInstant]
              omega

/-- C1 counterexample: the timed date-range record `c1dr` (same start and
end date, end clock 10:00 before start clock 14:00) converts successfully
to a non-all-day event whose endTime is strictly before its startTime, so
the invariant claimed for every successfully converted record fails. -/
theorem c1_counterexample :
    (p0.convertDateRangeEvent c1dr).map
      (fun ev => (ev.AllDay, decide (ev.EndTime < ev.StartTime))) =
      .ok (false, true) := by decide

/-- C1 (amended): for the weekly, single and recurring converters the
produced endTime is not before startTime provided the parsed start
time-of-day is at most 24:00, parsed end-time components are non-negative,
and any parsed duration is non-negative; a single all-day event ends
exactly one calendar day after it starts.  The date-range converter applies
no ordering correction: its all-day events satisfy end ≥ start + 1 day only
when end_date ≥ start_date, and its timed events reproduce exactly the
record's start/end points, so endTime ≥ startTime exactly when the end
point does not precede the start point. -/
theorem c1_end_not_before_start :
    (∀ (p : Parser) (we : WeeklyEvent) (ev : CalendarEvent) (sh sm eh em : Int),
      p.convertWeeklyEvent we = .ok ev →
      ParseTimeRange we.Time = .ok (sh, sm, eh, em) →
      sh * 60 + sm ≤ 1440 → 0 ≤ eh * 60 + em →
      ev.StartTime ≤ ev.EndTime) ∧
    (∀ (p : Parser) (se : SingleEventInput) (ev : CalendarEvent),
      p.convertSingleEvent se = .ok ev → se.AllDay = true →
      ev.EndTime = addDays ev.StartTime 1) ∧
    (∀ (p : Parser) (se : SingleEventInput) (ev : CalendarEvent) (sh sm : Int),
      p.convertSingleEvent se = .ok ev → se.AllDay = false →
      ParseTime se.StartTime = .ok (sh, sm) → sh * 60 + sm ≤ 1440 →
      (∀ eh em, ParseTime se.EndTime = .ok (eh, em) → 0 ≤ eh * 60 + em →
        ev.StartTime ≤ ev.EndTime) ∧
      (∀ dur, se.EndTime = "" → ParseDuration se.Duration = .ok dur → 0 ≤ dur →
        ev.StartTime ≤ ev.EndTime) ∧
      (se.EndTime = "" → se.Duration = "" → ev.StartTime ≤ ev.EndTime)) ∧
    (∀ (p : Parser) (today : Int) (re : RecurringEventInput) (ev : CalendarEvent)
      (sh sm : Int),
      p.convertRecurringEvent today re = .ok ev →
      ParseTime re.StartTime = .ok (sh, sm) → sh * 60 + sm ≤ 1440 →
      (∀ eh em, ParseTime re.EndTime = .ok (eh, em) → 0 ≤ eh * 60 + em →
        ev.StartTime ≤ ev.EndTime) ∧
      (∀ dur, re.EndTime = "" → ParseDuration re.Duration = .ok dur → 0 ≤ dur →
        ev.StartTime ≤ ev.EndTime) ∧
      (re.EndTime = "" → re.Duration = "" → ev.StartTime ≤ ev.EndTime)) ∧
    (∀ (p : Parser) (dr : DateRangeEventInput) (ev : CalendarEvent) (ds de : Int),
      p.convertDateRangeEvent dr = .ok ev →
      ParseDate dr.StartDate = .ok ds → ParseDate dr.EndDate = .ok de →
      (ev.AllDay = true →
        ev.StartTime = p.TimeParser.midnight ds ∧
        ev.EndTime = addDays (p.TimeParser.midnight de) 1 ∧
        (ds ≤ de → addDays ev.StartTime 1 ≤ ev.EndTime)) ∧
      (ev.AllDay = false → ∀ sh sm eh em, drStartClock dr = .ok (sh, sm) →
        drEndClock dr = .ok (eh, em) →
        ev.StartTime = p.TimeParser.CombineDateTime ds sh sm ∧
        ev.EndTime = p.TimeParser.CombineDateTime de eh em ∧
        (ds * 1440 + sh * 60 + sm ≤ de * 1440 + eh * 60 + em →
          ev.StartTime ≤ ev.EndTime))) :=
  ⟨fun p we ev sh sm eh em h1 h2 h3 h4 => c1_weekly_aux p we ev sh sm eh em h1 h2 h3 h4,
   fun p se ev h1 h2 => c1_single_allday_aux p se ev h1 h2,
   fun p se ev sh sm h1 h2 h3 h4 => c1_single_timed_aux p se ev sh sm h1 h2 h3 h4,
   fun p today re ev sh sm h1 h2 h3 => c1_recurring_aux p today re ev sh sm h1 h2 h3,
   fun p dr ev ds de h1 h2 h3 => c1_daterange_aux p dr ev ds de h1 h2 h3⟩

/-- C1 witness: the amended invariant applied to a concrete timed single
event (10:00 to 11:00 on 2025-03-01). -/
theorem c1_witness :
    p0.convertSingleEvent c1se = .ok c1ev ∧ c1ev.StartTime ≤ c1ev.EndTime :=
  ⟨by decide,
   (c1_end_not_before_start.2.2.1 p0 c1se c1ev 10 0 (by decide) (by decide)
      (by decide) (by decide)).1 11 0 (by decide) (by decide)⟩

/-! ## C2: format auto-detection precedence chain -/

/-- C2 counterexample: a document carrying both a `format` field and a
`week_1` key selects neither the format value nor the weekly heuristic
when the `format` value is JSON `null` — unmarshalling `null` into a
string succeeds as a no-op, so detection returns the lowercased zero value
`""` and the weekly heuristic never runs. -/
theorem c2_counterexample :
    detectFormat c2doc = "" ∧ detectFormat c2doc ≠ "weekly" := by
  constructor
  · decide
  · decide

/-- C2 (amended): `detectFormat` equals the specified precedence chain,
with two corrections forced by the source: a `format` field holding JSON
`null` returns `""` (no heuristics run), and rule 4 applies only when the
whole `events` value decodes as an array of objects (a non-object element
anywhere in the array makes detection fall through to `single`).  In
particular a string-valued `format` field always wins over `week_`-style
keys. -/
theorem c2_detect_chain (data : RawData) : detectFormat data = detectFormatSpec data := by
  cases data with
  | none => rfl
  | some j =>
    cases j with
    | obj fields =>
      simp only [detectFormat, detectFormatSpec, unmarshalObj, formatFieldValue,
        FormatSingle, FormatWeekly, FormatRecurring, FormatDateRange]
      cases lf : lookupField fields "format" with
      | none => rfl
      | some v => cases v <;> rfl
    | null => rfl
    | bool b => rfl
    | num n => rfl
    | str s => rfl
    | arr es => rfl

/-! ## C3: recurrence-rule wire rendering -/

/-- C3: the claimed rendering holds of `buildRRule` (the Google adapter),
but `ToRRuleString` (`models/event.go`, used by the ICS exporter) encodes
INTERVAL as the single character with code `interval + 48` — garbage for
any interval above 9 — and stamps UNTIL with the wall clock of the
instant's own zone plus a literal `Z`, without converting to UTC.  At
interval 12 the two renderers disagree; at the spec's WEEKLY/2/[MO,WE]
example both produce the claimed field sequence (prefixed by the `RRULE:`
property name). -/
theorem c3_rrule_rendering :
    RecurrenceRule.ToRRuleString 0 (some c3r12) = "RRULE:FREQ=WEEKLY;INTERVAL=<" ∧
    buildRRule (some c3r12) = "RRULE:FREQ=WEEKLY;INTERVAL=12" ∧
    buildRRule (some c3rEx) = "RRULE:FREQ=WEEKLY;INTERVAL=2;BYDAY=MO,WE" ∧
    RecurrenceRule.ToRRuleString 0 (some c3rEx) =
      "RRULE:FREQ=WEEKLY;INTERVAL=2;BYDAY=MO,WE" ∧
    RecurrenceRule.ToRRuleString 330 (some c3rU) =
      "RRULE:FREQ=DAILY;UNTIL=20251231T235959Z" ∧
    buildRRule (some c3rU) = "RRULE:FREQ=DAILY;UNTIL=20251231T182959Z" := by
  refine ⟨?_, ?_, ?_, ?_, ?_, ?_⟩ <;> decide

/-! ## C4: which keys the weekly converter processes -/

theorem lookupField_filter_week (k : String) (hk : Parser.isWeeklyKey k = true) :
    ∀ raw : List (String × JVal),
      lookupField (raw.filter fun kv => Parser.isWeeklyKey kv.1) k =
        lookupField raw k := by
  intro raw
  induction raw with
  | nil => rfl
  | cons kv rest ih =>
    obtain ⟨k0, v⟩ := kv
    by_cases h0 : Parser.isWeeklyKey k0 = true
    · by_cases he : k0 = k
      · simp [List.filter_cons, h0, lookupField, he, hk]
      · simp [List.filter_cons, h0, lookupField, he, ih]
    · have hne : k0 ≠ k := by
        intro h
        rw [h] at h0
        exact h0 hk
      simp [List.filter_cons, h0, lookupField, hne, ih]

theorem weekKeys_filter (raw : List (String × JVal)) :
    Parser.weekKeysSorted (raw.filter fun kv => Parser.isWeeklyKey kv.1) =
      Parser.weekKeysSorted raw := by
  unfold Parser.weekKeysSorted
  congr 1
  induction raw with
  | nil => rfl
  | cons kv rest ih =>
    obtain ⟨k0, v⟩ := kv
    by_cases h0 : Parser.isWeeklyKey k0 = true
    · simp [List.filter_cons, h0, ih]
    · simp [List.filter_cons, h0, ih]

theorem processWeeks_congr (p : Parser) (raw1 raw2 : List (String × JVal)) :
    ∀ ks : List String, (∀ k ∈ ks, lookupField raw1 k = lookupField raw2 k) →
      p.processWeeks raw1 ks = p.processWeeks raw2 ks := by
  intro ks
  induction ks with
  | nil => intro _; rfl
  | cons k0 ks ih =>
    intro h
    have h0 := h k0 (List.mem_cons_self k0 ks)
    have ht := ih (fun k hk => h k (List.mem_cons_of_mem k0 hk))
    simp only [Parser.processWeeks, Parser.weekGroup, h0, ht]

theorem mem_weekKeysSorted {k : String} {raw : List (String × JVal)}
    (h : k ∈ Parser.weekKeysSorted raw) : Parser.isWeeklyKey k = true := by
  unfold Parser.weekKeysSorted at h
  rw [mem_sortStrings] at h
  exact (List.mem_filter.1 h).2

/-- C4 counterexample: a weekly document whose only top-level key is
`weekend` — outside detection rule 3's set — still produces an event, so
the converter does not process exactly the rule-3 keys. -/
theorem c4_counterexample :
    (p0.parseWeekly c4doc).map (List.map CalendarEvent.Name) = .ok ["B"] ∧
    isWeekHeuristicKey "weekend" = false := by
  constructor
  · decide
  · decide

/-- C4 (amended): the weekly converter processes exactly the top-level
keys whose lowercased form starts with `week` — a strict superset of
detection rule 3's set: dropping every other key leaves the parse result
unchanged, and every rule-3 key is in the processed set. -/
theorem c4_weekly_key_filter :
    (∀ (p : Parser) (fields : List (String × JVal)),
      p.parseWeekly (some (JVal.obj fields)) =
        p.parseWeekly (some (JVal.obj (fields.filter fun kv => Parser.isWeeklyKey kv.1)))) ∧
    (∀ k, isWeekHeuristicKey k = true → Parser.isWeeklyKey k = true) := by
  constructor
  · intro p fields
    show p.processWeeks fields (Parser.weekKeysSorted fields) =
      p.processWeeks (fields.filter fun kv => Parser.isWeeklyKey kv.1)
        (Parser.weekKeysSorted (fields.filter fun kv => Parser.isWeeklyKey kv.1))
    rw [weekKeys_filter]
    exact processWeeks_congr p fields _ _
      (fun k hk => (lookupField_filter_week k (mem_weekKeysSorted hk) fields).symm)
  · intro k h
    unfold isWeekHeuristicKey at h
    unfold Parser.isWeeklyKey
    rcases Bool.or_eq_true_iff.1 h with h1 | h1
    · rcases Bool.or_eq_true_iff.1 h1 with h2 | h2
      · rw [List.isPrefixOf_iff_prefix] at h2 ⊢
        exact List.IsPrefix.trans (by decide) h2
      · rw [List.isPrefixOf_iff_prefix] at h2 ⊢
        exact List.IsPrefix.trans (by decide) h2
    · have h2 : listToLower k.toList = "week1".toList := by
        exact beq_iff_eq.mp h1
      rw [List.isPrefixOf_iff_prefix, h2]
      decide

/-- C4 witness: `week_1` is a rule-3 key and is processed by the weekly
converter's filter. -/
theorem c4_witness : Parser.isWeeklyKey "week_1" = true :=
  c4_weekly_key_filter.2 "week_1" (by decide)

/-! ## C5: weekly dialect ordering -/

/-- C5: the weekly parse emits the groups of its processed keys in
ascending lexical (plain string) order — `sortStrings` is sorted under the
byte-lexicographic order, and `week_10` sorts before `week_2` — and within
each group the converted events appear in input array order. -/
theorem c5_weekly_order :
    (∀ l : List String, (sortStrings l).Pairwise (fun a b => goStrLe a b = true)) ∧
    (∀ (p : Parser) (raw : List (String × JVal)) (gs : List (List CalendarEvent)),
      List.Forall₂ (fun k g => p.weekGroup raw k = .ok g)
        (Parser.weekKeysSorted raw) gs →
      p.parseWeekly (some (JVal.obj raw)) = .ok gs.flatten) ∧
    (∀ (p : Parser) (ws : List WeeklyEvent) (g : List CalendarEvent),
      List.Forall₂ (fun w ev => p.convertWeeklyEvent w = .ok ev) ws g →
      Parser.convertBatch p.convertWeeklyEvent (fun w => w.EventName) ws = .ok g) ∧
    sortStrings ["week_2", "week_10"] = ["week_10", "week_2"] := by
  refine ⟨sortStrings_pairwise, ?_, ?_, by decide⟩
  · intro p raw gs h
    show p.processWeeks raw (Parser.weekKeysSorted raw) = .ok gs.flatten
    exact Parser.processWeeks_forall₂ p raw h
  · intro p ws g h
    exact Parser.convertBatch_forall₂ p.convertWeeklyEvent (fun w => w.EventName) h

/-- C5 witness: the document `{week_2: [B], week_1: [A]}` emits the
`week_1` event before the `week_2` event. -/
theorem c5_witness : p0.parseWeekly (some (JVal.obj c5fields)) = .ok [c5evA, c5evB] := by
  have hks : Parser.weekKeysSorted c5fields = ["week_1", "week_2"] := by decide
  have hf : List.Forall₂ (fun k g => p0.weekGroup c5fields k = .ok g)
      (Parser.weekKeysSorted c5fields) [[c5evA], [c5evB]] := by
    rw [hks]
    exact List.Forall₂.cons (by decide) (List.Forall₂.cons (by decide) List.Forall₂.nil)
  have h := c5_weekly_order.2.1 p0 c5fields [[c5evA], [c5evB]] hf
  simpa using h

/-! ## C6: overnight end-time rollover -/

/-- C6: in `ParseDateTimeRange` and in the single and recurring converters
with an `end_time`, the end instant is first computed on the same calendar
date as the start; if it precedes the start instant it is advanced exactly
one calendar day, otherwise it is left unchanged. -/
theorem c6_rollover :
    (∀ (tp : TimeParser) (dateStr rangeStr : String) (d sh sm eh em : Int),
      ParseDate dateStr = .ok d → ParseTimeRange rangeStr = .ok (sh, sm, eh, em) →
      tp.ParseDateTimeRange dateStr rangeStr =
        .ok (tp.CombineDateTime d sh sm,
          if tp.CombineDateTime d eh em < tp.CombineDateTime d sh sm
          then addDays (tp.CombineDateTime d eh em) 1
          else tp.CombineDateTime d eh em)) ∧
    (∀ (p : Parser) (se : SingleEventInput) (d sh sm eh em : Int),
      se.AllDay = false → se.EndTime ≠ "" →
      ParseDate se.Date = .ok d → ParseTime se.StartTime = .ok (sh, sm) →
      ParseTime se.EndTime = .ok (eh, em) →
      p.convertSingleEvent se =
        .ok { Name := se.Name, Description := se.Description,
              StartTime := p.TimeParser.CombineDateTime d sh sm,
              EndTime :=
                if p.TimeParser.CombineDateTime d eh em <
                    p.TimeParser.CombineDateTime d sh sm
                then addDays (p.TimeParser.CombineDateTime d eh em) 1
                else p.TimeParser.CombineDateTime d eh em,
              Location := se.Location, Links := se.Links, AllDay := false,
              ColorID := se.ColorID }) ∧
    (∀ (p : Parser) (today : Int) (re : RecurringEventInput)
      (rule : RecurrenceRule) (d sh sm eh em : Int),
      (re.StartDate = "" ∧ d = today) ∨ (re.StartDate ≠ "" ∧ ParseDate re.StartDate = .ok d) →
      re.EndTime ≠ "" →
      ParseTime re.StartTime = .ok (sh, sm) → ParseTime re.EndTime = .ok (eh, em) →
      p.convertRecurrenceRule re.Recurrence = .ok rule →
      p.convertRecurringEvent today re =
        .ok { Name := re.Name, Description := re.Description,
              StartTime := p.TimeParser.CombineDateTime d sh sm,
              EndTime :=
                if p.TimeParser.CombineDateTime d eh em <
                    p.TimeParser.CombineDateTime d sh sm
                then addDays (p.TimeParser.CombineDateTime d eh em) 1
                else p.TimeParser.CombineDateTime d eh em,
              Location := re.Location, Links := re.Links,
              Recurrence := some rule, ColorID := re.ColorID }) := by
  refine ⟨?_, ?_, ?_⟩
  · intro tp dateStr rangeStr d sh sm eh em hd htr
    simp only [TimeParser.ParseDateTimeRange, hd, htr]
  · intro p se d sh sm eh em hall hET hd hst hpe
    simp only [Parser.convertSingleEvent, hd, hall, hst, ne_eq, hET,
      not_false_eq_true, if_true, hpe]
    rfl
  · intro p today re rule d sh sm eh em hsd hET hst hpe hrr
    rcases hsd with ⟨h1, h2⟩ | ⟨h1, h2⟩
    · subst h2
      simp only [Parser.convertRecurringEvent, h1, ne_eq, not_true_eq_false,
        if_false, ite_false, hst, hET, not_false_eq_true, if_true, hpe, hrr]
    · simp only [Parser.convertRecurringEvent, ne_eq, h1, not_false_eq_true,
        if_true, h2, hst, hET, hpe, hrr]

/-- C6 witness: start 23:00, end 01:00 on 2025-01-01 rolls the end to the
following calendar day. -/
theorem c6_witness :
    tp0.ParseDateTimeRange "2025-01-01" "23:00 - 01:00" =
      .ok (tp0.CombineDateTime c6day 23 0, addDays (tp0.CombineDateTime c6day 1 0) 1) := by
  have h := c6_rollover.1 tp0 "2025-01-01" "23:00 - 01:00" c6day 23 0 1 0
    (by decide) (by decide)
  rw [h]
  decide

/-! ## C7: conversion failures abort the whole parse, tagged with the
record name -/

/-- C7: in each dialect, if any decoded record fails conversion, the file
parse returns an error built from some failing record's declared name and
the underlying failure (for weekly: provided each week group decodes, so
failures are conversion failures), and no event list is produced. -/
theorem c7_error_propagation :
    (∀ (p : Parser) (data : RawData) (t : SingleTemplate) (se : SingleEventInput),
      decodeSingleTemplate data = some t → se ∈ t.Events →
      (∃ e, p.convertSingleEvent se = .error e) →
      ∃ se2 msg, se2 ∈ t.Events ∧ p.convertSingleEvent se2 = .error msg ∧
        p.parseSingle data =
          .error ("failed to convert event \x27" ++ se2.Name ++ "\x27: " ++ msg)) ∧
    (∀ (p : Parser) (today : Int) (data : RawData) (t : RecurringTemplate)
      (re : RecurringEventInput),
      decodeRecurringTemplate data = some t → re ∈ t.Events →
      (∃ e, p.convertRecurringEvent today re = .error e) →
      ∃ re2 msg, re2 ∈ t.Events ∧ p.convertRecurringEvent today re2 = .error msg ∧
        p.parseRecurring today data =
          .error ("failed to convert event \x27" ++ re2.Name ++ "\x27: " ++ msg)) ∧
    (∀ (p : Parser) (data : RawData) (t : DateRangeTemplate)
      (dr : DateRangeEventInput),
      decodeDateRangeTemplate data = some t → dr ∈ t.Events →
      (∃ e, p.convertDateRangeEvent dr = .error e) →
      ∃ dr2 msg, dr2 ∈ t.Events ∧ p.convertDateRangeEvent dr2 = .error msg ∧
        p.parseDateRange data =
          .error ("failed to convert event \x27" ++ dr2.Name ++ "\x27: " ++ msg)) ∧
    (∀ (p : Parser) (fields : List (String × JVal)),
      (∀ k ∈ Parser.weekKeysSorted fields,
        ∃ ws, decodeWeeklyEvents (lookupField fields k) = some ws) →
      (∃ k ∈ Parser.weekKeysSorted fields, ∃ ws w,
        decodeWeeklyEvents (lookupField fields k) = some ws ∧ w ∈ ws ∧
        ∃ e, p.convertWeeklyEvent w = .error e) →
      ∃ w msg, p.convertWeeklyEvent w = .error msg ∧
        p.parseWeekly (some (JVal.obj fields)) =
          .error ("failed to convert event \x27" ++ w.EventName ++ "\x27: " ++ msg)) := by
  refine ⟨?_, ?_, ?_, ?_⟩
  · intro p data t se hdec hmem hfail
    obtain ⟨se2, msg, hmem2, hconv2, hbatch⟩ :=
      Parser.convertBatch_error_of_mem p.convertSingleEvent (fun se => se.Name)
        se hmem hfail
    refine ⟨se2, msg, hmem2, hconv2, ?_⟩
    simp only [Parser.parseSingle, hdec, hbatch]
  · intro p today data t re hdec hmem hfail
    obtain ⟨re2, msg, hmem2, hconv2, hbatch⟩ :=
      Parser.convertBatch_error_of_mem (p.convertRecurringEvent today)
        (fun re => re.Name) re hmem hfail
    refine ⟨re2, msg, hmem2, hconv2, ?_⟩
    simp only [Parser.parseRecurring, hdec, hbatch]
  · intro p data t dr hdec hmem hfail
    obtain ⟨dr2, msg, hmem2, hconv2, hbatch⟩ :=
      Parser.convertBatch_error_of_mem p.convertDateRangeEvent (fun dr => dr.Name)
        dr hmem hfail
    refine ⟨dr2, msg, hmem2, hconv2, ?_⟩
    simp only [Parser.parseDateRange, hdec, hbatch]
  · intro p fields hdec hex
    obtain ⟨w, msg, hconv, hpw⟩ :=
      Parser.processWeeks_error p fields (Parser.weekKeysSorted fields) hdec hex
    exact ⟨w, msg, hconv, hpw⟩

/-- C7 witness: a single-events template whose only record has the
unparseable date `nope` fails the whole parse with an error carrying the
record name `A`. -/
theorem c7_witness :
    p0.parseSingle c7doc =
      .error "failed to convert event \x27A\x27: failed to parse date: unable to parse date: nope" := by
  obtain ⟨se2, msg, hmem, hconv, hparse⟩ :=
    c7_error_propagation.1 p0 c7doc { Events := [c7se] } c7se (by decide) (by decide)
      ⟨"failed to parse date: unable to parse date: nope", by decide⟩
  have hse : se2 = c7se := by simpa using hmem
  subst hse
  have h2 : p0.convertSingleEvent c7se =
      .error "failed to parse date: unable to parse date: nope" := by decide
  rw [hconv] at h2
  have hmsg : msg = "failed to parse date: unable to parse date: nope" :=
    (Except.error.inj h2)
  subst hmsg
  rw [hparse]
  decide

/-! ## C8: unknown format fails the parse -/

/-- C8: whenever the resolved format — the explicit argument, or the
detected one under auto-detection — is outside
{weekly, single, recurring, daterange}, `Parse` returns the
unknown-template-format error and produces no events. -/
theorem c8_unknown_format (p : Parser) (today : Int) (data : RawData)
    (format f : String)
    (hf : f = if format = FormatAuto ∨ format = "" then detectFormat data else format)
    (h1 : f ≠ FormatWeekly) (h2 : f ≠ FormatSingle) (h3 : f ≠ FormatRecurring)
    (h4 : f ≠ FormatDateRange) :
    p.Parse today data format = .error ("unknown template format: " ++ f) := by
  subst hf
  simp only [Parser.Parse]
  rw [if_neg h1, if_neg h2, if_neg h3, if_neg h4]

/-- C8 witness: the document declaring `format: "bogus"`, parsed with
auto-detection, fails with the unknown-format error and zero events. -/
theorem c8_witness :
    p0.Parse 0 c8doc FormatAuto = .error "unknown template format: bogus" := by
  have h := c8_unknown_format p0 0 c8doc FormatAuto "bogus" (by decide)
    (by decide) (by decide) (by decide) (by decide)
  rw [h]
  decide

/-! ## C9: exclude_weekends expansion -/

/-- C9: a successfully converted recurrence with `exclude_weekends: true`
and empty `by_day` gets byDay = [MO,TU,WE,TH,FR]; with a non-empty
`by_day` no expansion happens — the listed days are kept (normalized by
`normalizeDay`, which is the identity on the two-letter weekday codes). -/
theorem c9_exclude_weekends (p : Parser) (ri : RecurrenceInput)
    (rule : RecurrenceRule) (hconv : p.convertRecurrenceRule ri = .ok rule) :
    (ri.ExcludeWeekends = true → ri.ByDay = [] →
      rule.ByDay = ["MO", "TU", "WE", "TH", "FR"]) ∧
    (ri.ByDay ≠ [] → rule.ByDay = ri.ByDay.map normalizeDay) ∧
    (ri.ByDay ≠ [] → (∀ d ∈ ri.ByDay, normalizeDay d = d) → rule.ByDay = ri.ByDay) := by
  simp only [Parser.convertRecurrenceRule] at hconv
  by_cases hfr : (!decide (String.mk (listToUpper ri.Frequency.toList) = "DAILY" ∨
      String.mk (listToUpper ri.Frequency.toList) = "WEEKLY" ∨
      String.mk (listToUpper ri.Frequency.toList) = "MONTHLY" ∨
      String.mk (listToUpper ri.Frequency.toList) = "YEARLY")) = true
  · rw [if_pos hfr] at hconv
    exact Except.noConfusion hconv
  · rw [if_neg hfr] at hconv
    cases huE : (if ri.Until = "" then Except.ok none
      else
        match ParseDate ri.Until with
        | .error e => Except.error ("failed to parse until date: " ++ e)
        | .ok d => Except.ok (some (p.TimeParser.mkInstant d 23 59 59))) with
    | error e => rw [huE] at hconv; exact Except.noConfusion hconv
    | ok untilV =>
      rw [huE] at hconv
      injection hconv with h
      subst h
      have hmapid : ∀ l : List String, (∀ d ∈ l, normalizeDay d = d) →
          l.map normalizeDay = l := by
        intro l hl
        induction l with
        | nil => rfl
        | cons d ds ih =>
          simp only [List.map_cons, hl d (List.mem_cons_self d ds),
            ih (fun x hx => hl x (List.mem_cons_of_mem d hx))]
      refine ⟨?_, ?_, ?_⟩
      · intro hew hbd
        simp [hew, hbd]
      · intro hbd
        have hne : (ri.ByDay.map normalizeDay).isEmpty = false := by
          cases hb : ri.ByDay with
          | nil => exact absurd hb hbd
          | cons d ds => simp [hb]
        simp [hne]
      · intro hbd hid
        have hne : (ri.ByDay.map normalizeDay).isEmpty = false := by
          cases hb : ri.ByDay with
          | nil => exact absurd hb hbd
          | cons d ds => simp [hb]
        simp [hne, hmapid ri.ByDay hid]
        intro _ h
        exact absurd h hbd

/-- C9 witness: `exclude_weekends: true` with no `by_day` and frequency
`daily` yields exactly byDay = [MO,TU,WE,TH,FR]. -/
theorem c9_witness :
    p0.convertRecurrenceRule c9ri = .ok c9rule ∧
      c9rule.ByDay = ["MO", "TU", "WE", "TH", "FR"] :=
  ⟨by decide, (c9_exclude_weekends p0 c9ri c9rule (by decide)).1 rfl rfl⟩

/-! ## C10: no range validation in ParseTime; CombineDateTime total -/

theorem replaceListAux_of_not_contains (p : Char) (ps rep : List Char) :
    ∀ (fuel : Nat) (l : List Char), containsList p ps l = false →
      replaceListAux p ps rep fuel l = l := by
  intro fuel
  induction fuel with
  | zero => intro l _; rfl
  | succ fuel ih =>
    intro l h
    cases l with
    | nil => rfl
    | cons c rest =>
      simp only [containsList, Bool.or_eq_false_iff] at h
      simp only [replaceListAux, h.1, Bool.false_eq_true, if_false, ih rest h.2]

theorem goReplaceAll_of_not_contains (l : List Char) (pat rep : String)
    (hpat : pat.toList ≠ []) (h : goContains l pat = false) :
    goReplaceAll l pat rep = l := by
  unfold goContains at h
  unfold goReplaceAll
  cases hp : pat.toList with
  | nil => exact absurd hp hpat
  | cons p ps =>
    rw [hp] at h
    exact replaceListAux_of_not_contains p ps rep.toList l.length l h

/-- C10 counterexample: `10:30:00pm` — the first two colon-separated
segments of the raw input are the numerals 10 and 30, yet `ParseTime` does
not return them as-is: the trailing `pm` marker (in the ignored seconds
segment) triggers the 12-hour conversion and the result is (22, 30). -/
theorem c10_counterexample :
    (splitOnChar ':' "10:30:00pm".toList).map parseGoInt =
      [some 10, some 30, none] ∧
    ParseTime "10:30:00pm" = .ok (22, 30) ∧ (22, 30) ≠ ((10 : Int), (30 : Int)) := by
  refine ⟨?_, ?_, ?_⟩ <;> decide

/-- C10 (amended): `ParseTime` validates only what `strconv.Atoi`
validates.  In general, whenever the marker-stripped text splits on `:`
into at least two segments whose first two parse under `Atoi` (numeric and
within int64), `ParseTime` succeeds, returning the minute as written and
the hour adjusted only by the 12-hour conversion for a `pm`/`am` marker
found anywhere in the stripped text; with no marker present both numbers
are returned exactly as written — no clock-range check (e.g. `25:99`
succeeds as-is), though a segment beyond int64 does fail (`Atoi` range
error, e.g. a 20-digit hour).  `CombineDateTime` is total by construction
and normalizes out-of-range components by calendar rollover: hour + 24
lands on the next day, minute + 60 carries into the hour. -/
theorem c10_no_range_validation :
    (∀ (s : String) (hp hm : List Char) (rest : List (List Char)) (h m : Int),
      splitOnChar ':' (timeStripMarkers s) = hp :: hm :: rest →
      parseGoInt hp = some h → parseGoInt hm = some m →
      ParseTime s =
        .ok (if (goContains (timePreprocess s) "pm" && decide (h < 12)) = true
             then h + 12
             else if (goContains (timePreprocess s) "am" && h == 12) = true
             then 0 else h, m)) ∧
    (∀ (s : String) (hp hm : List Char) (rest : List (List Char)) (h m : Int),
      goContains (timePreprocess s) "pm" = false →
      goContains (timePreprocess s) "am" = false →
      splitOnChar ':' (timePreprocess s) = hp :: hm :: rest →
      parseGoInt hp = some h → parseGoInt hm = some m →
      ParseTime s = .ok (h, m)) ∧
    ParseTime "99999999999999999999:00" =
      .error "invalid hour: 99999999999999999999" ∧
    (∀ (tp : TimeParser) (d hh mm : Int),
      tp.CombineDateTime d (hh + 24) mm = tp.CombineDateTime (d + 1) hh mm ∧
      tp.CombineDateTime d hh (mm + 60) = tp.CombineDateTime d (hh + 1) mm) := by
  refine ⟨?_, ?_, by decide, ?_⟩
  · intro s hp hm rest h m hsplit hh hm2
    unfold timeStripMarkers at hsplit
    simp only [ParseTime]
    rw [hsplit]
    simp only [hh, hm2]
  · intro s hp hm rest h m hpm ham hsplit hh hm2
    simp only [ParseTime]
    rw [goReplaceAll_of_not_contains _ _ _ (by decide) hpm]
    rw [goReplaceAll_of_not_contains _ _ _ (by decide) ham]
    rw [hsplit]
    simp [hh, hm2, hpm, ham]
  · intro tp d hh mm
    constructor
    · simp only [TimeParser.CombineDateTime, TimeParser.mkInstant]
      ring
    · simp only [TimeParser.CombineDateTime, TimeParser.mkInstant]
      ring

/-- C10 witness: `25:99` parses with no clock-range validation, yielding
hour 25 and minute 99, and (via the general clause) `10:30:00pm` yields
(22, 30). -/
theorem c10_witness :
    ParseTime "25:99" = .ok (25, 99) ∧ ParseTime "10:30:00pm" = .ok (22, 30) := by
  constructor
  · exact c10_no_range_validation.2.1 "25:99" ['2', '5'] ['9', '9'] [] 25 99
      (by decide) (by decide) (by decide) (by decide) (by decide)
  · have h := c10_no_range_validation.1 "10:30:00pm" ['1', '0'] ['3', '0']
      [['0', '0']] 10 30 (by decide) (by decide) (by decide)
    rw [h]
    decide
